import Mathlib

/-!
Verification of the Camel Cards hand-ranking program (Advent of Code 2023 day 7).

The Rust source in src/src/main.rs is shallowly embedded below:

* `CardRank`, `HandType` mirror the two enums together with their
  ordinal functions.
* `Hand` mirrors the `Hand` struct; `mkHandWith` mirrors `Hand::new`
  followed by `sort_cards` and `get_hand_type`.  The `HashMap` field
  `cards_mapped` is embedded as a function `String → Option Nat`
  (a key is present exactly when the function returns `some`).
  Iteration order over the `HashMap` in the wildcard branch of
  `Hand::new` is unspecified in Rust; the label the loop ends up
  choosing is made an explicit parameter `c`, and `validChoice`
  characterises exactly the labels the loop can produce.
  `chooseMax` is one executable such choice.
* Panics (`unwrap` on a missing bid, out-of-range slicing inside the
  classification helpers, and the explicit tie `panic!` in `sort_hands`)
  are embedded as `none` of an `Option` result.  `CardRank::from_str`
  panics on an invalid label; the embedding totalises it with the junk
  ordinal `-1`, which no theorem below ever reaches because every claim
  is about hands over the 13 valid labels.
* `slice::sort_by` (a stable ascending sort) is embedded as Mathlib's
  stable `List.insertionSort` with the relation "comparator does not
  return Greater".
* Machine integers: bids are `i32`, embedded as `Int`; the accumulator
  in `solution` is `usize`, embedded as `Nat` reduced modulo `2 ^ 64`
  at each step, with the `bid as usize` cast embedded as `emod 2 ^ 64`.
-/

/-- The seven hand categories, weakest to strongest (enum `HandType`). -/
inductive HandType where
  | HighCard
  | Pair
  | TwoPair
  | ThreeOfAKind
  | FullHouse
  | FourOfAKind
  | FiveOfAKind
deriving DecidableEq

/-- `HandType::to_ordinal`. -/
def HandType.toOrdinal : HandType → Int
  | HandType.HighCard => 0
  | HandType.Pair => 1
  | HandType.TwoPair => 2
  | HandType.ThreeOfAKind => 3
  | HandType.FullHouse => 4
  | HandType.FourOfAKind => 5
  | HandType.FiveOfAKind => 6

/-- The thirteen card ranks (enum `CardRank`). -/
inductive CardRank where
  | two | three | four | five | six | seven | eight | nine | ten
  | jackOrJoker | queen | king | ace
deriving DecidableEq

/-- `CardRank::from_str`, with the panic on an unknown label embedded as
`none`. -/
def CardRank.fromStr : String → Option CardRank
  | "2" => some CardRank.two
  | "3" => some CardRank.three
  | "4" => some CardRank.four
  | "5" => some CardRank.five
  | "6" => some CardRank.six
  | "7" => some CardRank.seven
  | "8" => some CardRank.eight
  | "9" => some CardRank.nine
  | "T" => some CardRank.ten
  | "J" => some CardRank.jackOrJoker
  | "Q" => some CardRank.queen
  | "K" => some CardRank.king
  | "A" => some CardRank.ace
  | _ => none

/-- `CardRank::to_ordinal`. -/
def CardRank.toOrdinal (r : CardRank) (wildcardsEnabled : Bool) : Int :=
  match r with
  | CardRank.two => 1
  | CardRank.three => 2
  | CardRank.four => 3
  | CardRank.five => 4
  | CardRank.six => 5
  | CardRank.seven => 6
  | CardRank.eight => 7
  | CardRank.nine => 8
  | CardRank.ten => 9
  | CardRank.jackOrJoker => if wildcardsEnabled then 0 else 10
  | CardRank.queen => 11
  | CardRank.king => 12
  | CardRank.ace => 13

/-- The ordinal of a label string: `CardRank::from_str` followed by
`to_ordinal`.  The junk value `-1` stands for the `from_str` panic and is
unreachable on the 13 valid labels. -/
def ordStr (wild : Bool) (s : String) : Int :=
  match CardRank.fromStr s with
  | some r => r.toOrdinal wild
  | none => -1

/-- The 13 valid card labels. -/
def validLabels : List String :=
  ["2", "3", "4", "5", "6", "7", "8", "9", "T", "J", "Q", "K", "A"]

/-- `Ord::cmp` on integers. -/
def intCmp (a b : Int) : Ordering :=
  if a < b then Ordering.lt else if a = b then Ordering.eq else Ordering.gt

/-- `Ord::cmp` on the (non-negative) counts stored in `cards_mapped`. -/
def natCmp (a b : Nat) : Ordering :=
  if a < b then Ordering.lt else if a = b then Ordering.eq else Ordering.gt

/-- The `Hand` struct. -/
structure Hand where
  cards : List String
  cardsMapped : String → Option Nat
  bid : Int
  cardsSorted : List String
  handType : HandType
  cardsForSorting : List String

/-- The final contents of the `cards_mapped` map built by the counting
loop at the start of `Hand::new`: a key is present exactly for the labels
occurring in `cards`, with its occurrence count as value. -/
def buildMap (cards : List String) : String → Option Nat :=
  fun s => if s ∈ cards then some (cards.count s) else none

/-- The value `max_count` computed by the wildcard loop in `Hand::new`:
the largest count among the map entries whose key is not the joker.
(Taking the maximum over the labels with multiplicity instead of over the
distinct keys does not change the maximum.) -/
def maxCnt (cards : List String) : Nat :=
  ((cards.filter (fun x => x != "J")).map (fun x => cards.count x)).foldr max 0

/-- Which labels the wildcard loop in `Hand::new` can end up choosing as
`max_card`, depending on the unspecified `HashMap` iteration order: any
non-joker label of the hand attaining the maximal count, or the
initialisation value `A` when the hand has no non-joker label. -/
def validChoice (cards : List String) (c : String) : Prop :=
  if cards.any (fun x => x != "J") then
    c ≠ "J" ∧ c ∈ cards ∧ cards.count c = maxCnt cards
  else c = "A"

instance (cards : List String) (c : String) : Decidable (validChoice cards c) := by
  unfold validChoice
  split <;> infer_instance

/-- One concrete choice satisfying `validChoice`, used as the executable
default. -/
def chooseMax (cards : List String) : String :=
  match (cards.filter (fun x => x != "J")).find? (fun x => cards.count x == maxCnt cards) with
  | some c => c
  | none => "A"

/-- The substitution applied to `cards_for_sorting` in the wildcard
branch of `Hand::new`: every joker becomes the chosen label. -/
def substJ (c : String) (x : String) : String :=
  if x = "J" then c else x

/-- The update of `cards_mapped` performed by the wildcard branch of
`Hand::new`: `*cards_mapped.entry(max_card).or_insert(0) += max_count`
followed by `cards_mapped.remove` of the joker key. -/
def mergeJMap (m : String → Option Nat) (c : String) (k : Nat) : String → Option Nat :=
  fun s =>
    if s = "J" then none
    else if s = c then some ((m c).getD 0 + k)
    else m s

/-- The `cards_for_sorting` field after `Hand::new`. -/
def resolvedCards (c : String) (cards : List String) (wild : Bool) : List String :=
  if wild then cards.map (substJ c) else cards

/-- The `cards_mapped` field after `Hand::new`. -/
def handMap (c : String) (cards : List String) (wild : Bool) : String → Option Nat :=
  if wild then mergeJMap (buildMap cards) c (maxCnt cards) else buildMap cards

/-- The comparator closure of `Hand::sort_cards`: by count (a missing key
would be an `unwrap` panic in the source; the count of a present key is
its `getD 0` value), ties by the non-wildcard ordinal. -/
def sortCmp (m : String → Option Nat) (a b : String) : Ordering :=
  if (m a).getD 0 = (m b).getD 0 then intCmp (ordStr false a) (ordStr false b)
  else natCmp ((m a).getD 0) ((m b).getD 0)

/-- The `cards_sorted` field after `Hand::sort_cards`: `cards_for_sorting`
stably sorted ascending by the comparator, then reversed. -/
def sortedCards (c : String) (cards : List String) (wild : Bool) : List String :=
  (List.insertionSort (fun a b => sortCmp (handMap c cards wild) a b ≠ Ordering.gt)
    (resolvedCards c cards wild)).reverse

/-- `Hand::is_five_of_a_kind` (no slicing, total). -/
def isFiveOfAKind (l : List String) : Bool :=
  l.all (fun x => x == l.headD (""))

/-- `Hand::is_four_of_a_kind`; the slice `[0..4]` panics (`none`) when the
list is shorter than 4. -/
def isFourOfAKind? (l : List String) : Option Bool :=
  if 4 ≤ l.length then some ((l.take 4).all (fun x => x == l.headD (""))) else none

/-- `Hand::is_full_house`; slices `[0..3]` and (lazily) `[3..5]`. -/
def isFullHouse? (l : List String) : Option Bool :=
  if 3 ≤ l.length then
    if (l.take 3).all (fun x => x == l.headD ("")) then
      if 5 ≤ l.length then some (((l.drop 3).take 2).all (fun x => x == l.getD 3 ("")))
      else none
    else some false
  else none

/-- `Hand::is_three_of_a_kind`; slice `[0..3]`. -/
def isThreeOfAKind? (l : List String) : Option Bool :=
  if 3 ≤ l.length then some ((l.take 3).all (fun x => x == l.headD (""))) else none

/-- `Hand::is_two_pair`; slices `[0..2]` and (lazily) `[2..4]`. -/
def isTwoPair? (l : List String) : Option Bool :=
  if 2 ≤ l.length then
    if (l.take 2).all (fun x => x == l.headD ("")) then
      if 4 ≤ l.length then some (((l.drop 2).take 2).all (fun x => x == l.getD 2 ("")))
      else none
    else some false
  else none

/-- `Hand::is_pair`; slice `[0..2]`. -/
def isPair? (l : List String) : Option Bool :=
  if 2 ≤ l.length then some ((l.take 2).all (fun x => x == l.headD (""))) else none

/-- `Hand::get_hand_type`: the cascade of classification checks on
`cards_sorted`, propagating any slicing panic. -/
def getHandType (l : List String) : Option HandType :=
  if isFiveOfAKind l then some HandType.FiveOfAKind
  else match isFourOfAKind? l with
  | none => none
  | some true => some HandType.FourOfAKind
  | some false =>
    match isFullHouse? l with
    | none => none
    | some true => some HandType.FullHouse
    | some false =>
      match isThreeOfAKind? l with
      | none => none
      | some true => some HandType.ThreeOfAKind
      | some false =>
        match isTwoPair? l with
        | none => none
        | some true => some HandType.TwoPair
        | some false =>
          match isPair? l with
          | none => none
          | some true => some HandType.Pair
          | some false => some HandType.HighCard

/-- `Hand::new` (followed by the `sort_cards` and `get_hand_type` calls it
makes), with the label chosen by the wildcard loop as explicit
parameter `c`. -/
def mkHandWith (c : String) (cards : List String) (bid : Int) (wild : Bool) : Option Hand :=
  match getHandType (sortedCards c cards wild) with
  | some t =>
    some ⟨cards, handMap c cards wild, bid, sortedCards c cards wild, t,
      resolvedCards c cards wild⟩
  | none => none

/-- `Hand::new` with the executable default choice. -/
def mkHand (cards : List String) (bid : Int) (wild : Bool) : Option Hand :=
  mkHandWith (chooseMax cards) cards bid wild

/-- The position-by-position loop of the `sort_hands` comparator; `none`
embeds both the final tie `panic!` and the index panic on a shorter
second hand. -/
def cmpCardsLoop (wild : Bool) : List String → List String → Option Ordering
  | [], _ => none
  | _ :: _, [] => none
  | a :: as_, b :: bs =>
    if ordStr wild a ≠ ordStr wild b then some (intCmp (ordStr wild a) (ordStr wild b))
    else cmpCardsLoop wild as_ bs

/-- The `sort_hands` comparator on the fields it reads. -/
def cmpCore (wild : Bool) (t₁ t₂ : HandType) (cs₁ cs₂ : List String) : Option Ordering :=
  if t₁.toOrdinal = t₂.toOrdinal then cmpCardsLoop wild cs₁ cs₂
  else some (intCmp t₁.toOrdinal t₂.toOrdinal)

/-- The `sort_hands` comparator. -/
def cmpHands (wild : Bool) (a b : Hand) : Option Ordering :=
  cmpCore wild a.handType b.handType a.cards b.cards

/-- Stable insertion of a hand using the (possibly panicking)
comparator. -/
def insertHand (wild : Bool) (h : Hand) : List Hand → Option (List Hand)
  | [] => some [h]
  | g :: gs =>
    match cmpHands wild h g with
    | none => none
    | some o =>
      if o = Ordering.gt then (insertHand wild h gs).map (fun r => g :: r)
      else some (h :: g :: gs)

/-- `sort_hands`: stable ascending sort of the hand list, propagating a
comparator panic. -/
def sortHands (wild : Bool) : List Hand → Option (List Hand)
  | [] => some []
  | h :: hs =>
    match sortHands wild hs with
    | none => none
    | some s => insertHand wild h s

/-- The accumulation loop of `solution`: `sum += hand.bid as usize * (i + 1)`
with wrapping `usize` arithmetic. -/
def totalAux : Nat → Nat → List Hand → Nat
  | _, acc, [] => acc
  | i, acc, h :: hs =>
      totalAux (i + 1) ((acc + ((h.bid.emod (2 ^ 64)).toNat * (i + 1)) % 2 ^ 64) % 2 ^ 64) hs

/-- Total winnings of an already sorted hand list. -/
def totalWinnings (hands : List Hand) : Nat :=
  totalAux 0 0 hands

/-- The hand-construction part of `get_hands` on already-parsed rows:
build one `Hand` per row, any panic aborting the whole run. -/
def buildHands (f : List String → String) (rows : List (List String × Int))
    (wild : Bool) : Option (List Hand) :=
  match rows with
  | [] => some []
  | p :: ps =>
    match mkHandWith (f p.1) p.1 p.2 wild with
    | none => none
    | some h =>
      match buildHands f ps wild with
      | none => none
      | some hs => some (h :: hs)

/-- `solution` on already-parsed `(labels, bid)` rows, parameterised by the
wildcard-loop choice function. -/
def runSolutionWith (f : List String → String) (rows : List (List String × Int))
    (wild : Bool) : Option Nat :=
  match buildHands f rows wild with
  | none => none
  | some hands =>
    match sortHands wild hands with
    | none => none
    | some sorted => some (totalWinnings sorted)

/-- `solution` with the executable default choice. -/
def runSolution (rows : List (List String × Int)) (wild : Bool) : Option Nat :=
  runSolutionWith chooseMax rows wild

/-- Decimal digits to a natural number. -/
def digitsToNat (cs : List Char) : Nat :=
  cs.foldl (fun acc c => acc * 10 + (c.toNat - 48)) 0

/-- Is `c` an ASCII decimal digit. -/
def isDigitChar (c : Char) : Bool :=
  48 ≤ c.toNat && c.toNat ≤ 57

/-- `str::parse::<i32>` as used on the bid field of a line: optional sign,
at least one digit, result within the `i32` range. -/
def parseI32 (s : String) : Option Int :=
  let cs := s.data
  let neg : Bool := cs.headD (Char.ofNat 48) == Char.ofNat 45
  let plus : Bool := cs.headD (Char.ofNat 48) == Char.ofNat 43
  let ds := if neg || plus then cs.tail else cs
  if ds.isEmpty then none
  else if ds.all isDigitChar then
    let v : Int := (if neg then -1 else 1) * (digitsToNat ds : Nat)
    if -(2 ^ 31) ≤ v ∧ v ≤ 2 ^ 31 - 1 then some v else none
  else none

/-- Worker for `splitWs`: accumulates the current token (reversed) and
flushes it at each space, dropping empty tokens. -/
def splitWsGo : List Char → List Char → List String
  | cur, [] => if cur.isEmpty then [] else [String.mk cur.reverse]
  | cur, ch :: rest =>
    if ch == Char.ofNat 32 then
      if cur.isEmpty then splitWsGo [] rest
      else String.mk cur.reverse :: splitWsGo [] rest
    else splitWsGo (ch :: cur) rest

/-- `split_whitespace` of a (space-separated) line. -/
def splitWs (line : String) : List String :=
  splitWsGo [] line.data

/-- One line of `get_hands`: split the line, take the labels from the
first token, parse the bid from the second; the `unwrap`s on a missing
token or an unparsable bid are `none`. -/
def parseLine (line : String) : Option (List String × Int) :=
  match splitWs line with
  | cardsTok :: bidTok :: _ =>
    match parseI32 bidTok with
    | some b => some (cardsTok.data.map (fun ch => ch.toString), b)
    | none => none
  | _ => none

/-- The five example rows from the claim, already split into labels. -/
def exampleRows : List (List String × Int) :=
  [(["3", "2", "T", "3", "K"], 765),
   (["T", "5", "5", "J", "5"], 684),
   (["K", "K", "6", "7", "7"], 28),
   (["K", "T", "J", "J", "T"], 220),
   (["Q", "Q", "Q", "J", "A"], 483)]

/-! ### Specification-side definitions

`specHandCompare` follows the spec's words for the Hand Comparator
(compare category ordinals, higher wins; on equality compare the original
label sequences position by position with the mode-dependent ordinal);
`shapeClassify` follows the spec's classification table on the descending
sorted list of label counts. -/

/-- Modelled from the spec: position-by-position comparison of the two
original label sequences; the first position with differing ordinal
decides, a full tie is an error (`none`). -/
def specLexOriginal (wild : Bool) : List String → List String → Option Ordering
  | a :: as_, b :: bs =>
    if ordStr wild a = ordStr wild b then specLexOriginal wild as_ bs
    else some (intCmp (ordStr wild a) (ordStr wild b))
  | _, _ => none

/-- Modelled from the spec: the Hand Comparator contract of section 4.4. -/
def specHandCompare (wild : Bool) (a b : Hand) : Option Ordering :=
  if a.handType.toOrdinal ≠ b.handType.toOrdinal then
    some (intCmp a.handType.toOrdinal b.handType.toOrdinal)
  else specLexOriginal wild a.cards b.cards

/-- Modelled from the spec: the classification table of section 4.3 on the
descending sorted count list. -/
def shapeClassify : List Nat → Option HandType
  | [5] => some HandType.FiveOfAKind
  | [4, 1] => some HandType.FourOfAKind
  | [3, 2] => some HandType.FullHouse
  | [3, 1, 1] => some HandType.ThreeOfAKind
  | [2, 2, 1] => some HandType.TwoPair
  | [2, 1, 1, 1] => some HandType.Pair
  | [1, 1, 1, 1, 1] => some HandType.HighCard
  | _ => none

/-- The descending sorted list of occurrence counts of the distinct labels
of `l`. -/
def countsDesc (l : List String) : List Nat :=
  List.insertionSort (fun a b => b ≤ a) (l.dedup.map (fun a => l.count a))

/-- The total count stored in a `cards_mapped` map (summed over the valid
labels, which cover every key the program ever inserts for a valid hand). -/
def mapTotal (m : String → Option Nat) : Nat :=
  (validLabels.map (fun s => (m s).getD 0)).sum

/-! ### Basic lemmas about the comparator -/

theorem cmpLoop_eq_specLex (wild : Bool) :
    ∀ cs₁ cs₂, cmpCardsLoop wild cs₁ cs₂ = specLexOriginal wild cs₁ cs₂
  | [], cs₂ => by cases cs₂ <;> rfl
  | _ :: _, [] => rfl
  | a :: as_, b :: bs => by
    simp only [cmpCardsLoop, specLexOriginal]
    by_cases h : ordStr wild a = ordStr wild b
    · simp [h, cmpLoop_eq_specLex wild as_ bs]
    · simp [h]

theorem cmpLoop_self (wild : Bool) : ∀ cs, cmpCardsLoop wild cs cs = none
  | [] => rfl
  | a :: as_ => by simp [cmpCardsLoop, cmpLoop_self wild as_]

theorem cmpHands_eq_spec (wild : Bool) (a b : Hand) :
    cmpHands wild a b = specHandCompare wild a b := by
  unfold cmpHands cmpCore specHandCompare
  by_cases h : a.handType.toOrdinal = b.handType.toOrdinal
  · simp [h, cmpLoop_eq_specLex]
  · simp [h]

theorem cmpHands_congr (wild : Bool) (a a' b b' : Hand)
    (h₁ : a.handType = a'.handType) (h₂ : a.cards = a'.cards)
    (h₃ : b.handType = b'.handType) (h₄ : b.cards = b'.cards) :
    cmpHands wild a b = cmpHands wild a' b' := by
  unfold cmpHands
  rw [h₁, h₂, h₃, h₄]

/-! ### Basic lemmas about hand construction -/

theorem mkHandWith_eq_some {c : String} {cards : List String} {bid : Int} {wild : Bool}
    {h : Hand} (hh : mkHandWith c cards bid wild = some h) :
    h = ⟨cards, handMap c cards wild, bid, sortedCards c cards wild, h.handType,
      resolvedCards c cards wild⟩ ∧
    getHandType (sortedCards c cards wild) = some h.handType := by
  unfold mkHandWith at hh
  cases hgt : getHandType (sortedCards c cards wild) with
  | none => rw [hgt] at hh; cases hh
  | some t => rw [hgt] at hh; cases hh; exact ⟨rfl, rfl⟩

theorem exists_quint : ∀ {l : List String}, l.length = 5 →
    ∃ v w x y z, l = [v, w, x, y, z]
  | [v, w, x, y, z], _ => ⟨v, w, x, y, z, rfl⟩
  | [], h => by simp at h
  | [_], h => by simp at h
  | [_, _], h => by simp at h
  | [_, _, _], h => by simp at h
  | [_, _, _, _], h => by simp at h
  | _ :: _ :: _ :: _ :: _ :: _ :: _, h => by simp at h

theorem getHandType_isSome {l : List String} (hlen : l.length = 5) :
    (getHandType l).isSome := by
  obtain ⟨v, w, x, y, z, rfl⟩ := exists_quint hlen
  obtain ⟨bf, hf⟩ : ∃ b, isFullHouse? [v, w, x, y, z] = some b := by
    unfold isFullHouse?
    cases hc : (([v, w, x, y, z].take 3).all (fun s => s == [v, w, x, y, z].headD (""))) <;>
      simp [hc]
  obtain ⟨bt, ht⟩ : ∃ b, isTwoPair? [v, w, x, y, z] = some b := by
    unfold isTwoPair?
    cases hc : (([v, w, x, y, z].take 2).all (fun s => s == [v, w, x, y, z].headD (""))) <;>
      simp [hc]
  unfold getHandType
  simp only [hf, ht, isFourOfAKind?, isThreeOfAKind?, isPair?]
  norm_num
  repeat' split <;> simp_all

/-! ### Summation lemmas for the count map -/

theorem buildMap_getD (cards : List String) (s : String) :
    ((buildMap cards) s).getD 0 = cards.count s := by
  unfold buildMap
  by_cases h : s ∈ cards
  · simp [h]
  · simp [h, List.count_eq_zero_of_not_mem h]

theorem sum_map_add (L : List String) (f g : String → Nat) :
    (L.map (fun s => f s + g s)).sum = (L.map f).sum + (L.map g).sum := by
  induction L with
  | nil => simp
  | cons a t ih => simp [ih]; omega

theorem sum_indicator_zero (L : List String) (x : String) (hx : x ∉ L) :
    (L.map (fun s => if s = x then 1 else 0)).sum = 0 := by
  induction L with
  | nil => simp
  | cons a t ih =>
    simp only [List.mem_cons, not_or] at hx
    simp [Ne.symm hx.1, hx.1, ih hx.2]

theorem sum_indicator_one (L : List String) (x : String) (hL : L.Nodup) (hx : x ∈ L) :
    (L.map (fun s => if s = x then 1 else 0)).sum = 1 := by
  induction L with
  | nil => cases hx
  | cons a t ih =>
    obtain ⟨hat, hndt⟩ := List.nodup_cons.mp hL
    by_cases hax : a = x
    · have hxt : x ∉ t := fun hm => hat (hax ▸ hm)
      simp [hax, sum_indicator_zero t x hxt]
    · have hxt : x ∈ t := by
        rcases List.mem_cons.mp hx with h | h
        · exact absurd h.symm hax
        · exact h
      simp [hax, ih hndt hxt]

theorem sum_counts (cards : List String) (L : List String) (hL : L.Nodup)
    (hcov : ∀ x ∈ cards, x ∈ L) :
    (L.map (fun s => cards.count s)).sum = cards.length := by
  induction cards with
  | nil => simp
  | cons x xs ih =>
    have hstep : ∀ s ∈ L, (x :: xs).count s = xs.count s + (if s = x then 1 else 0) := by
      intro s _
      by_cases hsx : s = x
      · simp [List.count_cons, hsx]
      · simp [List.count_cons, beq_iff_eq, hsx, Ne.symm hsx]
    rw [List.map_congr_left hstep, sum_map_add, ih (fun y hy => hcov y (List.mem_cons_of_mem x hy)),
      sum_indicator_one L x hL (hcov x (List.mem_cons_self x xs))]
    simp [Nat.add_comm]

theorem sum_exchange (a : String) (f g : String → Nat) :
    ∀ (L : List String), L.Nodup → a ∈ L → (∀ s ∈ L, s ≠ a → f s = g s) →
      (L.map f).sum + g a = (L.map g).sum + f a := by
  intro L
  induction L with
  | nil => intro _ ha; cases ha
  | cons b t ih =>
    intro hnd hmem hfg
    obtain ⟨hbt, hndt⟩ := List.nodup_cons.mp hnd
    by_cases hab : b = a
    · have hmap : t.map f = t.map g := by
        apply List.map_congr_left
        intro s hs
        exact hfg s (List.mem_cons_of_mem b hs) (fun hsa => hbt ((hsa.trans hab.symm) ▸ hs))
      simp only [List.map_cons, List.sum_cons, hmap, hab]
      omega
    · have hat : a ∈ t := by
        rcases List.mem_cons.mp hmem with h | h
        · exact absurd h.symm hab
        · exact h
      have hfb : f b = g b := hfg b (List.mem_cons_self b t) hab
      have hih := ih hndt hat (fun s hs hsa => hfg s (List.mem_cons_of_mem b hs) hsa)
      simp only [List.map_cons, List.sum_cons, hfb]
      omega

/-! ### The wildcard count map -/

theorem validChoice_ne_J {cards : List String} {c : String} (h : validChoice cards c) :
    c ≠ "J" := by
  unfold validChoice at h
  split at h
  · exact h.1
  · rw [h]; decide

theorem validChoice_mem_labels {cards : List String} {c : String}
    (hval : ∀ x ∈ cards, x ∈ validLabels) (h : validChoice cards c) : c ∈ validLabels := by
  unfold validChoice at h
  split at h
  · exact hval c h.2.1
  · rw [h]; decide

/-- The counts of the original hand, as a total function. -/
def cntFun (cards : List String) : String → Nat :=
  fun s => cards.count s

/-- The counts of the original hand with the joker entry removed. -/
def cntNoJ (cards : List String) : String → Nat :=
  fun s => if s = "J" then 0 else cards.count s

theorem wildMap_total (cards : List String) (c : String)
    (hval : ∀ x ∈ cards, x ∈ validLabels) (hc : validChoice cards c) :
    (handMap c cards true) ("J") = none ∧
    mapTotal (handMap c cards true) + cards.count ("J") = cards.length + maxCnt cards := by
  have hcJ := validChoice_ne_J hc
  have hcL := validChoice_mem_labels hval hc
  have hnd : validLabels.Nodup := by decide
  refine ⟨by simp [handMap, mergeJMap], ?_⟩
  have hpt : ∀ s ∈ validLabels, ((handMap c cards true) s).getD 0 =
      (if s = c then cards.count c + maxCnt cards else cntNoJ cards s) := by
    intro s _
    show ((mergeJMap (buildMap cards) c (maxCnt cards)) s).getD 0 = _
    unfold mergeJMap cntNoJ
    by_cases hsJ : s = "J"
    · have hsc : ¬ s = c := by rw [hsJ]; exact fun h => hcJ h.symm
      have hJc : ¬ ("J" : String) = c := fun h => hcJ h.symm
      simp [hsJ, hsc, hJc]
    · by_cases hsc : s = c
      · simp [hsJ, hsc, hcJ, buildMap_getD]
      · simp [hsJ, hsc, buildMap_getD]
  have e1 : mapTotal (handMap c cards true) =
      (validLabels.map (fun s => if s = c then cards.count c + maxCnt cards
        else cntNoJ cards s)).sum := by
    unfold mapTotal
    exact congrArg List.sum (List.map_congr_left hpt)
  have e2 := sum_exchange c
    (fun s => if s = c then cards.count c + maxCnt cards else cntNoJ cards s)
    (cntNoJ cards) validLabels hnd hcL (fun s _ hsc => by simp [hsc])
  simp only [if_pos] at e2
  have e3 := sum_exchange ("J") (cntNoJ cards) (cntFun cards) validLabels hnd (by decide)
    (fun s _ hsJ => by simp [cntNoJ, cntFun, hsJ])
  have e4 : (validLabels.map (cntFun cards)).sum = cards.length :=
    sum_counts cards validLabels hnd hval
  have h1c : cntNoJ cards c = cards.count c := by simp [cntNoJ, hcJ]
  have h1J : cntNoJ cards ("J") = 0 := by simp [cntNoJ]
  have hfJ : cntFun cards ("J") = cards.count ("J") := rfl
  rw [e1]
  omega

/-! ### The order underlying the card-sorting comparator -/

/-- The total preorder "count, then non-wildcard ordinal, ascending"
realised by the `sort_cards` comparator. -/
def keyLe (cnt : String → Nat) (a b : String) : Prop :=
  cnt a < cnt b ∨ (cnt a = cnt b ∧ ordStr false a ≤ ordStr false b)

theorem sortCmp_ne_gt_iff (m : String → Option Nat) (a b : String) :
    (sortCmp m a b ≠ Ordering.gt) ↔ keyLe (fun s => (m s).getD 0) a b := by
  unfold sortCmp natCmp intCmp keyLe
  split_ifs <;> simp <;> omega

theorem ordStr_inj : ∀ a ∈ validLabels, ∀ b ∈ validLabels,
    ordStr false a = ordStr false b → a = b := by decide

theorem sortedCards_pairwise (c : String) (cards : List String) (wild : Bool) :
    (sortedCards c cards wild).Pairwise
      (fun a b => keyLe (fun s => ((handMap c cards wild) s).getD 0) b a) := by
  unfold sortedCards
  rw [List.pairwise_reverse]
  haveI : IsTotal String
      (fun a b => sortCmp (handMap c cards wild) a b ≠ Ordering.gt) := by
    constructor
    intro a b
    rw [sortCmp_ne_gt_iff, sortCmp_ne_gt_iff]
    unfold keyLe
    omega
  haveI : IsTrans String
      (fun a b => sortCmp (handMap c cards wild) a b ≠ Ordering.gt) := by
    constructor
    intro a b d hab hbd
    rw [sortCmp_ne_gt_iff] at hab hbd ⊢
    unfold keyLe at hab hbd ⊢
    omega
  exact (List.sorted_insertionSort _ (resolvedCards c cards wild)).imp
    (fun h => (sortCmp_ne_gt_iff _ _ _).mp h)

/-! ### The resolved card sequence -/

theorem mem_resolved {cards : List String} {c x : String} {wild : Bool}
    (hx : x ∈ resolvedCards c cards wild) :
    x = c ∨ (x ∈ cards ∧ (wild = true → x ≠ "J")) := by
  unfold resolvedCards at hx
  cases wild with
  | false => exact Or.inr ⟨hx, by simp⟩
  | true =>
    simp only [if_pos] at hx
    obtain ⟨y, hy, hsub⟩ := List.mem_map.mp hx
    unfold substJ at hsub
    by_cases hyJ : y = "J"
    · rw [if_pos hyJ] at hsub
      exact Or.inl hsub.symm
    · rw [if_neg hyJ] at hsub
      exact Or.inr ⟨hsub ▸ hy, fun _ => hsub ▸ hyJ⟩

theorem resolved_valid {cards : List String} {c : String} {wild : Bool}
    (hval : ∀ x ∈ cards, x ∈ validLabels) (hc : wild = true → validChoice cards c) :
    ∀ x ∈ resolvedCards c cards wild, x ∈ validLabels := by
  intro x hx
  rcases mem_resolved hx with rfl | ⟨hmem, _⟩
  · cases wild with
    | false => exact hval x (by simpa [resolvedCards] using hx)
    | true => exact validChoice_mem_labels hval (hc rfl)
  · exact hval x hmem

theorem resolved_length (c : String) (cards : List String) (wild : Bool) :
    (resolvedCards c cards wild).length = cards.length := by
  unfold resolvedCards
  cases wild <;> simp

theorem resolved_count_c {cards : List String} {c : String} (hcJ : c ≠ "J") :
    (cards.map (substJ c)).count c = cards.count c + cards.count ("J") := by
  induction cards with
  | nil => simp
  | cons x xs ih =>
    by_cases hxJ : x = "J"
    · have h1 : substJ c ("J") = c := by simp [substJ]
      have h2 : ¬ (("J" : String) = c) := fun h => hcJ h.symm
      simp [List.count_cons, h1, hxJ, beq_iff_eq, h2, hcJ, ih]
      omega
    · have h1 : substJ c x = x := by simp [substJ, hxJ]
      simp [List.count_cons, h1, beq_iff_eq, hxJ, ih]
      omega

theorem resolved_count_ne {cards : List String} {c x : String} (hxJ : x ≠ "J")
    (hxc : x ≠ c) :
    (cards.map (substJ c)).count x = cards.count x := by
  induction cards with
  | nil => simp
  | cons y ys ih =>
    by_cases hyJ : y = "J"
    · have h1 : substJ c y = c := by simp [substJ, hyJ]
      have h2 : ¬ (c = x) := fun h => hxc h.symm
      have h3 : ¬ (y = x) := fun h => hxJ (h ▸ hyJ)
      simp [List.count_cons, h1, beq_iff_eq, h2, h3, ih]
    · have h1 : substJ c y = y := by simp [substJ, hyJ]
      simp [List.count_cons, h1, beq_iff_eq, ih]

/-! ### Bounds from the maximal non-joker count -/

theorem le_foldr_max : ∀ (L : List Nat) (x : Nat), x ∈ L → x ≤ L.foldr max 0
  | [], x, hx => by cases hx
  | a :: t, x, hx => by
    rcases List.mem_cons.mp hx with rfl | hxt
    · exact Nat.le_max_left _ _
    · exact Nat.le_trans (le_foldr_max t x hxt) (Nat.le_max_right _ _)

theorem count_le_maxCnt {cards : List String} {d : String} (hd : d ∈ cards)
    (hdJ : d ≠ "J") : cards.count d ≤ maxCnt cards := by
  unfold maxCnt
  apply le_foldr_max
  exact List.mem_map.mpr ⟨d, List.mem_filter.mpr ⟨hd, bne_iff_ne.mpr hdJ⟩, rfl⟩

theorem wildMap_getD (cards : List String) (c : String) : ∀ s,
    ((handMap c cards true) s).getD 0 =
      if s = "J" then 0
      else if s = c then cards.count c + maxCnt cards
      else cards.count s := by
  intro s
  show ((mergeJMap (buildMap cards) c (maxCnt cards)) s).getD 0 = _
  unfold mergeJMap
  by_cases hsJ : s = "J"
  · simp [hsJ]
  · by_cases hsc : s = c
    · have hcJ : ¬ c = "J" := hsc ▸ hsJ
      simp [hsJ, hsc, hcJ, buildMap_getD]
    · simp [hsJ, hsc, buildMap_getD]

theorem keyLe_count_resolved (cards : List String) (c : String) (wild : Bool)
    (hc : wild = true → validChoice cards c) :
    ∀ a ∈ resolvedCards c cards wild, ∀ b ∈ resolvedCards c cards wild,
      keyLe (fun s => ((handMap c cards wild) s).getD 0) b a →
      (resolvedCards c cards wild).count b ≤ (resolvedCards c cards wild).count a := by
  intro a ha b hb hk
  cases wild with
  | false =>
    have hres : resolvedCards c cards false = cards := rfl
    unfold keyLe at hk
    have e : ∀ s, ((handMap c cards false) s).getD 0 = cards.count s :=
      fun s => buildMap_getD cards s
    simp only [e] at hk
    rw [hres]
    rcases hk with h | ⟨h, _⟩ <;> omega
  | true =>
    have hvc := hc rfl
    have hcJ := validChoice_ne_J hvc
    have hres : resolvedCards c cards true = cards.map (substJ c) := rfl
    unfold keyLe at hk
    simp only [wildMap_getD cards c] at hk
    rw [hres]
    by_cases hac : a = c
    · subst hac
      by_cases hbc : b = a
      · rw [hbc]
      · obtain ⟨hbM, hbJ⟩ : b ∈ cards ∧ b ≠ "J" := by
          rcases mem_resolved hb with h | ⟨hM, hJ⟩
          · exact absurd h hbc
          · exact ⟨hM, hJ rfl⟩
        have hbcnt : (cards.map (substJ a)).count b = cards.count b :=
          resolved_count_ne hbJ hbc
        have hccnt : (cards.map (substJ a)).count a = cards.count a + cards.count ("J") :=
          resolved_count_c hcJ
        have hany : cards.any (fun x => x != "J") = true :=
          List.any_eq_true.mpr ⟨b, hbM, bne_iff_ne.mpr hbJ⟩
        have hvc' : a ≠ "J" ∧ a ∈ cards ∧ cards.count a = maxCnt cards := by
          unfold validChoice at hvc
          rwa [if_pos hany] at hvc
        have hble : cards.count b ≤ maxCnt cards := count_le_maxCnt hbM hbJ
        rw [hbcnt, hccnt]
        omega
    · obtain ⟨haM, haJ⟩ : a ∈ cards ∧ a ≠ "J" := by
        rcases mem_resolved ha with h | ⟨hM, hJ⟩
        · exact absurd h hac
        · exact ⟨hM, hJ rfl⟩
      have hacnt : (cards.map (substJ c)).count a = cards.count a :=
        resolved_count_ne haJ hac
      have hany : cards.any (fun x => x != "J") = true :=
        List.any_eq_true.mpr ⟨a, haM, bne_iff_ne.mpr haJ⟩
      have hvc' : c ≠ "J" ∧ c ∈ cards ∧ cards.count c = maxCnt cards := by
        unfold validChoice at hvc
        rwa [if_pos hany] at hvc
      have hale : cards.count a ≤ maxCnt cards := count_le_maxCnt haM haJ
      by_cases hbc : b = c
      · exfalso
        rw [hbc] at hk
        have e1 : (if c = "J" then (0 : Nat)
            else if c = c then cards.count c + maxCnt cards else cards.count c) =
            cards.count c + maxCnt cards := by simp [hcJ]
        have e2 : (if a = "J" then (0 : Nat)
            else if a = c then cards.count c + maxCnt cards else cards.count a) =
            cards.count a := by simp [haJ, hac]
        rw [e1, e2] at hk
        have h1 : cards.count a ≠ 0 := fun h0 => (List.count_eq_zero.mp h0) haM
        rcases hk with h | ⟨h, _⟩ <;> omega
      · obtain ⟨hbM, hbJ⟩ : b ∈ cards ∧ b ≠ "J" := by
          rcases mem_resolved hb with h | ⟨hM, hJ⟩
          · exact absurd h hbc
          · exact ⟨hM, hJ rfl⟩
        have hbcnt : (cards.map (substJ c)).count b = cards.count b :=
          resolved_count_ne hbJ hbc
        simp only [if_neg haJ, if_neg hac, if_neg hbJ, if_neg hbc] at hk
        rw [hacnt, hbcnt]
        rcases hk with h | ⟨h, _⟩ <;> omega

theorem countsDesc_perm {l₁ l₂ : List String} (h : l₁.Perm l₂) :
    countsDesc l₁ = countsDesc l₂ := by
  unfold countsDesc
  haveI : IsTotal Nat (fun a b => b ≤ a) := ⟨fun a b => le_total b a⟩
  haveI : IsTrans Nat (fun a b => b ≤ a) := ⟨fun a b d h1 h2 => le_trans h2 h1⟩
  haveI : IsAntisymm Nat (fun a b => b ≤ a) := ⟨fun a b h1 h2 => le_antisymm h2 h1⟩
  have hs₁ : List.Sorted (fun a b => b ≤ a)
      (List.insertionSort (fun a b => b ≤ a) (l₁.dedup.map (fun a => l₁.count a))) :=
    List.sorted_insertionSort _ _
  have hs₂ : List.Sorted (fun a b => b ≤ a)
      (List.insertionSort (fun a b => b ≤ a) (l₂.dedup.map (fun a => l₂.count a))) :=
    List.sorted_insertionSort _ _
  have hperm : (List.insertionSort (fun a b => b ≤ a) (l₁.dedup.map (fun a => l₁.count a))).Perm
      (List.insertionSort (fun a b => b ≤ a) (l₂.dedup.map (fun a => l₂.count a))) := by
    refine (List.perm_insertionSort _ _).trans (List.Perm.trans ?_
      (List.perm_insertionSort _ _).symm)
    refine (h.dedup.map _).trans ?_
    rw [List.map_congr_left (fun a _ => h.count_eq a)]
  exact List.eq_of_perm_of_sorted hperm hs₁ hs₂

set_option maxHeartbeats 1600000 in
theorem cascade_shape (cnt : String → Nat) (l : List String)
    (hlen : l.length = 5)
    (hinj : ∀ a ∈ l, ∀ b ∈ l, ordStr false a = ordStr false b → a = b)
    (hsort : l.Pairwise (fun a b => keyLe cnt b a))
    (hcnt : ∀ a ∈ l, ∀ b ∈ l, keyLe cnt b a → l.count b ≤ l.count a) :
    getHandType l = shapeClassify (countsDesc l) := by
  obtain ⟨v, w, x, y, z, rfl⟩ := exists_quint hlen
  simp only [List.pairwise_cons, List.mem_cons, List.mem_singleton, List.not_mem_nil,
    forall_eq_or_imp, forall_eq, List.Pairwise.nil, and_true, IsEmpty.forall_iff,
    implies_true] at hsort
  obtain ⟨⟨hwv, hxv, hyv, hzv⟩, ⟨hxw, hyw, hzw⟩, ⟨hyx, hzx⟩, hzy⟩ := hsort
  have asym : ∀ p q : String, p ∈ ([v, w, x, y, z] : List String) →
      q ∈ ([v, w, x, y, z] : List String) →
      keyLe cnt p q → keyLe cnt q p → p = q := by
    intro p q hp hq h1 h2
    have hord : ordStr false p = ordStr false q := by
      unfold keyLe at h1 h2
      rcases h1 with h1 | ⟨e1, o1⟩ <;> rcases h2 with h2 | ⟨e2, o2⟩ <;> omega
    exact hinj p hp q hq hord
  by_cases hb1 : v = w
  · subst hb1
    by_cases hb2 : v = x
    · subst hb2
      by_cases hb3 : v = y
      · subst hb3
        by_cases hb4 : v = z
        · -- [v, v, v, v, v]
          subst hb4
          have e1 : getHandType [v, v, v, v, v] = some HandType.FiveOfAKind := by
            simp [getHandType, isFiveOfAKind]
          have hd : ([v, v, v, v, v] : List String).dedup = [v] := by
            simp [List.dedup_cons_of_mem, List.dedup_cons_of_not_mem, List.mem_dedup]
          have c1 : ([v, v, v, v, v] : List String).count v = 5 := by
            simp [List.count_cons]
          have e2 : countsDesc [v, v, v, v, v] = [5] := by
            unfold countsDesc
            rw [hd]
            simp [c1]
          rw [e1, e2]
          decide
        · -- [v, v, v, v, z], z distinct
          have b1 : (z == v) = false := beq_eq_false_iff_ne.mpr (Ne.symm hb4)
          have e1 : getHandType [v, v, v, v, z] = some HandType.FourOfAKind := by
            simp [getHandType, isFiveOfAKind, isFourOfAKind?, b1]
          have hd : ([v, v, v, v, z] : List String).dedup = [v, z] := by
            simp [List.dedup_cons_of_mem, List.dedup_cons_of_not_mem, List.mem_dedup,
              hb4, Ne.symm hb4]
          have c1 : ([v, v, v, v, z] : List String).count v = 4 := by
            simp [List.count_cons, beq_iff_eq, Ne.symm hb4]
          have c2 : ([v, v, v, v, z] : List String).count z = 1 := by
            simp [List.count_cons, beq_iff_eq, hb4]
          have e2 : countsDesc [v, v, v, v, z] = [4, 1] := by
            unfold countsDesc
            rw [hd]
            simp [c1, c2]
          rw [e1, e2]
          decide
      · by_cases hb4 : y = z
        · -- [v, v, v, y, y]
          subst hb4
          have b1 : (y == v) = false := beq_eq_false_iff_ne.mpr (Ne.symm hb3)
          have e1 : getHandType [v, v, v, y, y] = some HandType.FullHouse := by
            simp [getHandType, isFiveOfAKind, isFourOfAKind?, isFullHouse?, b1]
          have hd : ([v, v, v, y, y] : List String).dedup = [v, y] := by
            simp [List.dedup_cons_of_mem, List.dedup_cons_of_not_mem, List.mem_dedup,
              hb3, Ne.symm hb3]
          have c1 : ([v, v, v, y, y] : List String).count v = 3 := by
            simp [List.count_cons, beq_iff_eq, Ne.symm hb3]
          have c2 : ([v, v, v, y, y] : List String).count y = 2 := by
            simp [List.count_cons, beq_iff_eq, hb3]
          have e2 : countsDesc [v, v, v, y, y] = [3, 2] := by
            unfold countsDesc
            rw [hd]
            simp [c1, c2]
          rw [e1, e2]
          decide
        · -- [v, v, v, y, z], all three distinct
          have dzv : ¬ z = v := by
            intro h
            rw [h] at hzy
            exact hb3 (asym y v (by simp) (by simp) hyv hzy).symm
          have b1 : (y == v) = false := beq_eq_false_iff_ne.mpr (Ne.symm hb3)
          have b2 : (z == y) = false := beq_eq_false_iff_ne.mpr (Ne.symm hb4)
          have e1 : getHandType [v, v, v, y, z] = some HandType.ThreeOfAKind := by
            simp [getHandType, isFiveOfAKind, isFourOfAKind?, isFullHouse?,
              isThreeOfAKind?, b1, b2]
          have hd : ([v, v, v, y, z] : List String).dedup = [v, y, z] := by
            simp [List.dedup_cons_of_mem, List.dedup_cons_of_not_mem, List.mem_dedup,
              hb3, Ne.symm hb3, hb4, Ne.symm hb4, dzv, Ne.symm dzv]
          have c1 : ([v, v, v, y, z] : List String).count v = 3 := by
            simp [List.count_cons, beq_iff_eq, Ne.symm hb3, dzv]
          have c2 : ([v, v, v, y, z] : List String).count y = 1 := by
            simp [List.count_cons, beq_iff_eq, hb3, Ne.symm hb4]
          have c3 : ([v, v, v, y, z] : List String).count z = 1 := by
            simp [List.count_cons, beq_iff_eq, Ne.symm dzv, hb4]
          have e2 : countsDesc [v, v, v, y, z] = [3, 1, 1] := by
            unfold countsDesc
            rw [hd]
            simp [c1, c2, c3]
          rw [e1, e2]
          decide
    · by_cases hb3 : x = y
      · subst hb3
        by_cases hb4 : x = z
        · -- [v, v, x, x, x] : impossible (counts ascend)
          subst hb4
          exfalso
          have cv : ([v, v, x, x, x] : List String).count v = 2 := by
            simp [List.count_cons, beq_iff_eq, hb2]
          have cx : ([v, v, x, x, x] : List String).count x = 3 := by
            simp [List.count_cons, beq_iff_eq, hb2]
          have h := hcnt v (by simp) x (by simp) hxv
          rw [cv, cx] at h
          omega
        · -- [v, v, x, x, z]
          have dzv : ¬ z = v := by
            intro h
            rw [h] at hzx
            exact hb2 (asym x v (by simp) (by simp) hxv hzx).symm
          have b1 : (x == v) = false := beq_eq_false_iff_ne.mpr (Ne.symm hb2)
          have e1 : getHandType [v, v, x, x, z] = some HandType.TwoPair := by
            simp [getHandType, isFiveOfAKind, isFourOfAKind?, isFullHouse?,
              isThreeOfAKind?, isTwoPair?, b1]
          have hd : ([v, v, x, x, z] : List String).dedup = [v, x, z] := by
            simp [List.dedup_cons_of_mem, List.dedup_cons_of_not_mem, List.mem_dedup,
              hb2, Ne.symm hb2, hb4, Ne.symm hb4, dzv, Ne.symm dzv]
          have c1 : ([v, v, x, x, z] : List String).count v = 2 := by
            simp [List.count_cons, beq_iff_eq, Ne.symm hb2, dzv]
          have c2 : ([v, v, x, x, z] : List String).count x = 2 := by
            simp [List.count_cons, beq_iff_eq, hb2, Ne.symm hb4]
          have c3 : ([v, v, x, x, z] : List String).count z = 1 := by
            simp [List.count_cons, beq_iff_eq, Ne.symm dzv, hb4]
          have e2 : countsDesc [v, v, x, x, z] = [2, 2, 1] := by
            unfold countsDesc
            rw [hd]
            simp [c1, c2, c3]
          rw [e1, e2]
          decide
      · by_cases hb4 : y = z
        · -- [v, v, x, y, y] : impossible (runs 2,1,2)
          subst hb4
          exfalso
          have dyv : ¬ y = v := by
            intro h
            rw [h] at hyx
            exact hb2 (asym x v (by simp) (by simp) hxv hyx).symm
          have cx : ([v, v, x, y, y] : List String).count x = 1 := by
            simp [List.count_cons, beq_iff_eq, hb2, Ne.symm hb3]
          have cy : ([v, v, x, y, y] : List String).count y = 2 := by
            simp [List.count_cons, beq_iff_eq, Ne.symm dyv, hb3]
          have h := hcnt x (by simp) y (by simp) hyx
          rw [cx, cy] at h
          omega
        · -- [v, v, x, y, z]
          have dyv : ¬ y = v := by
            intro h
            rw [h] at hyx
            exact hb2 (asym x v (by simp) (by simp) hxv hyx).symm
          have dzx : ¬ z = x := by
            intro h
            rw [h] at hzy
            exact hb3 (asym y x (by simp) (by simp) hyx hzy).symm
          have dzv : ¬ z = v := by
            intro h
            rw [h] at hzy
            exact dyv (asym y v (by simp) (by simp) hyv hzy)
          have b1 : (x == v) = false := beq_eq_false_iff_ne.mpr (Ne.symm hb2)
          have b2 : (y == x) = false := beq_eq_false_iff_ne.mpr (Ne.symm hb3)
          have e1 : getHandType [v, v, x, y, z] = some HandType.Pair := by
            simp [getHandType, isFiveOfAKind, isFourOfAKind?, isFullHouse?,
              isThreeOfAKind?, isTwoPair?, isPair?, b1, b2]
          have hd : ([v, v, x, y, z] : List String).dedup = [v, x, y, z] := by
            simp [List.dedup_cons_of_mem, List.dedup_cons_of_not_mem, List.mem_dedup,
              hb2, Ne.symm hb2, hb3, Ne.symm hb3, hb4, Ne.symm hb4, dyv, Ne.symm dyv,
              dzx, Ne.symm dzx, dzv, Ne.symm dzv]
          have c1 : ([v, v, x, y, z] : List String).count v = 2 := by
            simp [List.count_cons, beq_iff_eq, Ne.symm hb2, dyv, dzv]
          have c2 : ([v, v, x, y, z] : List String).count x = 1 := by
            simp [List.count_cons, beq_iff_eq, hb2, Ne.symm hb3, dzx]
          have c3 : ([v, v, x, y, z] : List String).count y = 1 := by
            simp [List.count_cons, beq_iff_eq, Ne.symm dyv, hb3, Ne.symm hb4]
          have c4 : ([v, v, x, y, z] : List String).count z = 1 := by
            simp [List.count_cons, beq_iff_eq, Ne.symm dzv, Ne.symm dzx, hb4]
          have e2 : countsDesc [v, v, x, y, z] = [2, 1, 1, 1] := by
            unfold countsDesc
            rw [hd]
            simp [c1, c2, c3, c4]
          rw [e1, e2]
          decide
  · by_cases hb2 : w = x
    · subst hb2
      by_cases hb3 : w = y
      · subst hb3
        by_cases hb4 : w = z
        · -- [v, w, w, w, w] : impossible (runs 1,4)
          subst hb4
          exfalso
          have cv : ([v, w, w, w, w] : List String).count v = 1 := by
            simp [List.count_cons, beq_iff_eq, Ne.symm hb1]
          have cw : ([v, w, w, w, w] : List String).count w = 4 := by
            simp [List.count_cons, beq_iff_eq, hb1]
          have h := hcnt v (by simp) w (by simp) hwv
          rw [cv, cw] at h
          omega
        · -- [v, w, w, w, z] : impossible (runs 1,3,1)
          exfalso
          have dzv : ¬ z = v := by
            intro h
            rw [h] at hzw
            exact hb1 (asym w v (by simp) (by simp) hwv hzw).symm
          have cv : ([v, w, w, w, z] : List String).count v = 1 := by
            simp [List.count_cons, beq_iff_eq, Ne.symm hb1, dzv]
          have cw : ([v, w, w, w, z] : List String).count w = 3 := by
            simp [List.count_cons, beq_iff_eq, hb1, Ne.symm hb4]
          have h := hcnt v (by simp) w (by simp) hwv
          rw [cv, cw] at h
          omega
      · by_cases hb4 : y = z
        · -- [v, w, w, y, y] : impossible (runs 1,2,2)
          subst hb4
          exfalso
          have dyv : ¬ y = v := by
            intro h
            rw [h] at hyw
            exact hb1 (asym w v (by simp) (by simp) hwv hyw).symm
          have cv : ([v, w, w, y, y] : List String).count v = 1 := by
            simp [List.count_cons, beq_iff_eq, Ne.symm hb1, dyv]
          have cw : ([v, w, w, y, y] : List String).count w = 2 := by
            simp [List.count_cons, beq_iff_eq, hb1, Ne.symm hb3]
          have h := hcnt v (by simp) w (by simp) hwv
          rw [cv, cw] at h
          omega
        · -- [v, w, w, y, z] : impossible (runs 1,2,1,1)
          exfalso
          have dyv : ¬ y = v := by
            intro h
            rw [h] at hyw
            exact hb1 (asym w v (by simp) (by simp) hwv hyw).symm
          have dzw : ¬ z = w := by
            intro h
            rw [h] at hzy
            exact hb3 (asym y w (by simp) (by simp) hyw hzy).symm
          have dzv : ¬ z = v := by
            intro h
            rw [h] at hzy
            exact dyv (asym y v (by simp) (by simp) hyv hzy)
          have cv : ([v, w, w, y, z] : List String).count v = 1 := by
            simp [List.count_cons, beq_iff_eq, Ne.symm hb1, dyv, dzv]
          have cw : ([v, w, w, y, z] : List String).count w = 2 := by
            simp [List.count_cons, beq_iff_eq, hb1, Ne.symm hb3, dzw]
          have h := hcnt v (by simp) w (by simp) hwv
          rw [cv, cw] at h
          omega
    · by_cases hb3 : x = y
      · subst hb3
        by_cases hb4 : x = z
        · -- [v, w, x, x, x] : impossible (runs 1,1,3)
          subst hb4
          exfalso
          have dxv : ¬ x = v := by
            intro h
            rw [h] at hxw
            exact hb1 (asym w v (by simp) (by simp) hwv hxw).symm
          have cw : ([v, w, x, x, x] : List String).count w = 1 := by
            simp [List.count_cons, beq_iff_eq, hb1, Ne.symm hb2]
          have cx : ([v, w, x, x, x] : List String).count x = 3 := by
            simp [List.count_cons, beq_iff_eq, Ne.symm dxv, hb2]
          have h := hcnt w (by simp) x (by simp) hxw
          rw [cw, cx] at h
          omega
        · -- [v, w, x, x, z] : impossible (runs 1,1,2,1)
          exfalso
          have dxv : ¬ x = v := by
            intro h
            rw [h] at hxw
            exact hb1 (asym w v (by simp) (by simp) hwv hxw).symm
          have dzw : ¬ z = w := by
            intro h
            rw [h] at hzx
            exact hb2 (asym x w (by simp) (by simp) hxw hzx).symm
          have cw : ([v, w, x, x, z] : List String).count w = 1 := by
            simp [List.count_cons, beq_iff_eq, hb1, Ne.symm hb2, dzw]
          have cx : ([v, w, x, x, z] : List String).count x = 2 := by
            simp [List.count_cons, beq_iff_eq, Ne.symm dxv, hb2, Ne.symm hb4]
          have h := hcnt w (by simp) x (by simp) hxw
          rw [cw, cx] at h
          omega
      · by_cases hb4 : y = z
        · -- [v, w, x, y, y] : impossible (runs 1,1,1,2)
          subst hb4
          exfalso
          have dxv : ¬ x = v := by
            intro h
            rw [h] at hxw
            exact hb1 (asym w v (by simp) (by simp) hwv hxw).symm
          have dyw : ¬ y = w := by
            intro h
            rw [h] at hyx
            exact hb2 (asym x w (by simp) (by simp) hxw hyx).symm
          have dyv : ¬ y = v := by
            intro h
            rw [h] at hyx
            exact dxv (asym x v (by simp) (by simp) hxv hyx)
          have cx : ([v, w, x, y, y] : List String).count x = 1 := by
            simp [List.count_cons, beq_iff_eq, Ne.symm dxv, hb2, Ne.symm hb3]
          have cy : ([v, w, x, y, y] : List String).count y = 2 := by
            simp [List.count_cons, beq_iff_eq, Ne.symm dyv, Ne.symm dyw, hb3]
          have h := hcnt x (by simp) y (by simp) hyx
          rw [cx, cy] at h
          omega
        · -- [v, w, x, y, z] : all distinct
          have dxv : ¬ x = v := by
            intro h
            rw [h] at hxw
            exact hb1 (asym w v (by simp) (by simp) hwv hxw).symm
          have dyw : ¬ y = w := by
            intro h
            rw [h] at hyx
            exact hb2 (asym x w (by simp) (by simp) hxw hyx).symm
          have dyv : ¬ y = v := by
            intro h
            rw [h] at hyx
            exact dxv (asym x v (by simp) (by simp) hxv hyx)
          have dzx : ¬ z = x := by
            intro h
            rw [h] at hzy
            exact hb3 (asym y x (by simp) (by simp) hyx hzy).symm
          have dzw : ¬ z = w := by
            intro h
            rw [h] at hzy
            exact dyw (asym y w (by simp) (by simp) hyw hzy)
          have dzv : ¬ z = v := by
            intro h
            rw [h] at hzy
            exact dyv (asym y v (by simp) (by simp) hyv hzy)
          have b1 : (w == v) = false := beq_eq_false_iff_ne.mpr (Ne.symm hb1)
          have e1 : getHandType [v, w, x, y, z] = some HandType.HighCard := by
            simp [getHandType, isFiveOfAKind, isFourOfAKind?, isFullHouse?,
              isThreeOfAKind?, isTwoPair?, isPair?, b1]
          have hd : ([v, w, x, y, z] : List String).dedup = [v, w, x, y, z] := by
            simp [List.dedup_cons_of_mem, List.dedup_cons_of_not_mem, List.mem_dedup,
              hb1, Ne.symm hb1, hb2, Ne.symm hb2, hb3, Ne.symm hb3, hb4, Ne.symm hb4,
              dxv, Ne.symm dxv, dyw, Ne.symm dyw, dyv, Ne.symm dyv, dzx, Ne.symm dzx,
              dzw, Ne.symm dzw, dzv, Ne.symm dzv]
          have c1 : ([v, w, x, y, z] : List String).count v = 1 := by
            simp [List.count_cons, beq_iff_eq, Ne.symm hb1, dxv, dyv, dzv]
          have c2 : ([v, w, x, y, z] : List String).count w = 1 := by
            simp [List.count_cons, beq_iff_eq, hb1, Ne.symm hb2, dyw, dzw]
          have c3 : ([v, w, x, y, z] : List String).count x = 1 := by
            simp [List.count_cons, beq_iff_eq, Ne.symm dxv, hb2, Ne.symm hb3, dzx]
          have c4 : ([v, w, x, y, z] : List String).count y = 1 := by
            simp [List.count_cons, beq_iff_eq, Ne.symm dyv, Ne.symm dyw, hb3,
              Ne.symm hb4]
          have c5 : ([v, w, x, y, z] : List String).count z = 1 := by
            simp [List.count_cons, beq_iff_eq, Ne.symm dzv, Ne.symm dzw, Ne.symm dzx,
              hb4]
          have e2 : countsDesc [v, w, x, y, z] = [1, 1, 1, 1, 1] := by
            unfold countsDesc
            rw [hd]
            simp [c1, c2, c3, c4, c5]
          rw [e1, e2]
          decide

theorem countsDesc_eq_of_counts_perm {l₁ l₂ : List String}
    (h : (l₁.dedup.map (fun a => l₁.count a)).Perm (l₂.dedup.map (fun a => l₂.count a))) :
    countsDesc l₁ = countsDesc l₂ := by
  unfold countsDesc
  haveI : IsTotal Nat (fun a b => b ≤ a) := ⟨fun a b => le_total b a⟩
  haveI : IsTrans Nat (fun a b => b ≤ a) := ⟨fun a b d h1 h2 => le_trans h2 h1⟩
  haveI : IsAntisymm Nat (fun a b => b ≤ a) := ⟨fun a b h1 h2 => le_antisymm h2 h1⟩
  exact List.eq_of_perm_of_sorted
    ((List.perm_insertionSort _ _).trans (h.trans (List.perm_insertionSort _ _).symm))
    (List.sorted_insertionSort _ _) (List.sorted_insertionSort _ _)

theorem mem_substJ_iff {cards : List String} {c : String} (hcJ : c ≠ "J") (hcM : c ∈ cards)
    (s : String) : s ∈ cards.map (substJ c) ↔ (s ∈ cards ∧ s ≠ "J") := by
  constructor
  · intro hs
    obtain ⟨y, hy, hsub⟩ := List.mem_map.mp hs
    unfold substJ at hsub
    by_cases hyJ : y = "J"
    · rw [if_pos hyJ] at hsub
      exact ⟨hsub ▸ hcM, hsub ▸ hcJ⟩
    · rw [if_neg hyJ] at hsub
      exact ⟨hsub ▸ hy, hsub ▸ hyJ⟩
  · rintro ⟨hsM, hsJ⟩
    exact List.mem_map.mpr ⟨s, hsM, by simp [substJ, hsJ]⟩

theorem countsDesc_subst_indep (cards : List String) (c₁ c₂ : String)
    (h₁ : validChoice cards c₁) (h₂ : validChoice cards c₂) :
    countsDesc (cards.map (substJ c₁)) = countsDesc (cards.map (substJ c₂)) := by
  by_cases hany : cards.any (fun x => x != "J") = true
  · unfold validChoice at h₁ h₂
    rw [if_pos hany] at h₁ h₂
    obtain ⟨hc₁J, hc₁M, hc₁cnt⟩ := h₁
    obtain ⟨hc₂J, hc₂M, hc₂cnt⟩ := h₂
    by_cases heq : c₁ = c₂
    · rw [heq]
    · have hne : c₂ ≠ c₁ := fun h => heq h.symm
      apply countsDesc_eq_of_counts_perm
      set l₁ := cards.map (substJ c₁) with hl₁
      set l₂ := cards.map (substJ c₂) with hl₂
      have hmem₁ := mem_substJ_iff hc₁J hc₁M
      have hmem₂ := mem_substJ_iff hc₂J hc₂M
      have hd : (l₁.dedup).Perm (l₂.dedup) := by
        rw [List.perm_iff_count]
        intro a
        rw [List.count_dedup, List.count_dedup]
        have e : (a ∈ l₁) = (a ∈ l₂) := propext ((hmem₁ a).trans (hmem₂ a).symm)
        simp only [e]
      have hc₁D : c₁ ∈ l₁.dedup := List.mem_dedup.mpr ((hmem₁ c₁).mpr ⟨hc₁M, hc₁J⟩)
      have hnd : l₁.dedup.Nodup := List.nodup_dedup _
      have hp₁ : (l₁.dedup).Perm (c₁ :: l₁.dedup.erase c₁) := List.perm_cons_erase hc₁D
      have hc₂E : c₂ ∈ l₁.dedup.erase c₁ :=
        (List.mem_erase_of_ne hne).mpr (List.mem_dedup.mpr ((hmem₁ c₂).mpr ⟨hc₂M, hc₂J⟩))
      have hp₂ : (l₁.dedup.erase c₁).Perm (c₂ :: (l₁.dedup.erase c₁).erase c₂) :=
        List.perm_cons_erase hc₂E
      set M := (l₁.dedup.erase c₁).erase c₂ with hM
      have hDperm : (l₁.dedup).Perm (c₁ :: c₂ :: M) := hp₁.trans (hp₂.cons c₁)
      have hMfacts : ∀ x ∈ M, x ≠ c₁ ∧ x ≠ c₂ ∧ x ∈ cards ∧ x ≠ "J" := by
        intro x hx
        have h1 := ((hnd.erase c₁).mem_erase_iff).mp hx
        have h2 := (hnd.mem_erase_iff).mp h1.2
        have h3 := (hmem₁ x).mp (List.mem_dedup.mp h2.2)
        exact ⟨h2.1, h1.1, h3.1, h3.2⟩
      have mcongr : M.map (fun a => l₁.count a) = M.map (fun a => l₂.count a) := by
        apply List.map_congr_left
        intro x hx
        obtain ⟨hx₁, hx₂, hxM, hxJ⟩ := hMfacts x hx
        rw [hl₁, hl₂, resolved_count_ne hxJ hx₁, resolved_count_ne hxJ hx₂]
      have v₁ : l₁.count c₁ = maxCnt cards + cards.count ("J") := by
        rw [hl₁, resolved_count_c hc₁J, hc₁cnt]
      have v₂ : l₁.count c₂ = maxCnt cards := by
        rw [hl₁, resolved_count_ne hc₂J hne, hc₂cnt]
      have w₁ : l₂.count c₁ = maxCnt cards := by
        rw [hl₂, resolved_count_ne hc₁J heq, hc₁cnt]
      have w₂ : l₂.count c₂ = maxCnt cards + cards.count ("J") := by
        rw [hl₂, resolved_count_c hc₂J, hc₂cnt]
      have step₁ : (l₁.dedup.map (fun a => l₁.count a)).Perm
          ((c₁ :: c₂ :: M).map (fun a => l₁.count a)) := hDperm.map _
      have step₂ : ((c₁ :: c₂ :: M).map (fun a => l₁.count a)) =
          (maxCnt cards + cards.count ("J")) :: maxCnt cards ::
            M.map (fun a => l₂.count a) := by
        simp only [List.map_cons, v₁, v₂, mcongr]
      have step₃ : ((maxCnt cards + cards.count ("J")) :: maxCnt cards ::
          M.map (fun a => l₂.count a)).Perm
          (maxCnt cards :: (maxCnt cards + cards.count ("J")) ::
            M.map (fun a => l₂.count a)) :=
        List.Perm.swap _ _ _
      have step₄ : (maxCnt cards :: (maxCnt cards + cards.count ("J")) ::
          M.map (fun a => l₂.count a)) = ((c₁ :: c₂ :: M).map (fun a => l₂.count a)) := by
        simp only [List.map_cons, w₁, w₂]
      have step₅ : ((c₁ :: c₂ :: M).map (fun a => l₂.count a)).Perm
          (l₂.dedup.map (fun a => l₂.count a)) :=
        ((hDperm.map _).symm).trans (hd.map _)
      rw [step₂] at step₁
      rw [step₄] at step₃
      exact (step₁.trans step₃).trans step₅
  · unfold validChoice at h₁ h₂
    rw [if_neg hany] at h₁ h₂
    rw [h₁, h₂]

theorem sortedCards_length (c : String) (cards : List String) (wild : Bool) :
    (sortedCards c cards wild).length = cards.length := by
  unfold sortedCards
  rw [List.length_reverse, (List.perm_insertionSort _ _).length_eq, resolved_length]

theorem sortedCards_perm (c : String) (cards : List String) (wild : Bool) :
    (sortedCards c cards wild).Perm (resolvedCards c cards wild) := by
  unfold sortedCards
  exact (List.reverse_perm _).trans (List.perm_insertionSort _ _)

theorem handType_eq_shape (c : String) (cards : List String) (bid : Int) (wild : Bool)
    (hlen : cards.length = 5) (hval : ∀ x ∈ cards, x ∈ validLabels)
    (hc : wild = true → validChoice cards c) :
    ∃ h, mkHandWith c cards bid wild = some h ∧
      shapeClassify (countsDesc h.cardsForSorting) = some h.handType := by
  have hslen : (sortedCards c cards wild).length = 5 := by
    rw [sortedCards_length, hlen]
  obtain ⟨t, ht⟩ := Option.isSome_iff_exists.mp (getHandType_isSome hslen)
  refine ⟨⟨cards, handMap c cards wild, bid, sortedCards c cards wild, t,
    resolvedCards c cards wild⟩, ?_, ?_⟩
  · unfold mkHandWith
    rw [ht]
  · show shapeClassify (countsDesc (resolvedCards c cards wild)) = some t
    have hperm := sortedCards_perm c cards wild
    have hvalid : ∀ s ∈ sortedCards c cards wild, s ∈ validLabels := fun s hs =>
      resolved_valid hval hc s (hperm.mem_iff.mp hs)
    have hinj : ∀ a ∈ sortedCards c cards wild, ∀ b ∈ sortedCards c cards wild,
        ordStr false a = ordStr false b → a = b := fun a ha b hb =>
      ordStr_inj a (hvalid a ha) b (hvalid b hb)
    have hcnt : ∀ a ∈ sortedCards c cards wild, ∀ b ∈ sortedCards c cards wild,
        keyLe (fun s => ((handMap c cards wild) s).getD 0) b a →
        (sortedCards c cards wild).count b ≤ (sortedCards c cards wild).count a := by
      intro a ha b hb hk
      rw [hperm.count_eq, hperm.count_eq]
      exact keyLe_count_resolved cards c wild hc a (hperm.mem_iff.mp ha) b
        (hperm.mem_iff.mp hb) hk
    have hmain := cascade_shape (fun s => ((handMap c cards wild) s).getD 0)
      (sortedCards c cards wild) hslen hinj (sortedCards_pairwise c cards wild) hcnt
    rw [ht] at hmain
    rw [countsDesc_perm hperm.symm]
    exact hmain.symm

theorem handType_choice_indep (c₁ c₂ : String) (cards : List String) (bid₁ bid₂ : Int)
    (wild : Bool) (hlen : cards.length = 5) (hval : ∀ x ∈ cards, x ∈ validLabels)
    (hc₁ : wild = true → validChoice cards c₁) (hc₂ : wild = true → validChoice cards c₂) :
    (mkHandWith c₁ cards bid₁ wild).map Hand.handType =
      (mkHandWith c₂ cards bid₂ wild).map Hand.handType := by
  obtain ⟨g₁, e₁, s₁⟩ := handType_eq_shape c₁ cards bid₁ wild hlen hval hc₁
  obtain ⟨g₂, e₂, s₂⟩ := handType_eq_shape c₂ cards bid₂ wild hlen hval hc₂
  rw [e₁, e₂, Option.map_some', Option.map_some']
  have p₁ : g₁.cardsForSorting = resolvedCards c₁ cards wild :=
    congrArg Hand.cardsForSorting (mkHandWith_eq_some e₁).1
  have p₂ : g₂.cardsForSorting = resolvedCards c₂ cards wild :=
    congrArg Hand.cardsForSorting (mkHandWith_eq_some e₂).1
  have hcfs : countsDesc g₁.cardsForSorting = countsDesc g₂.cardsForSorting := by
    rw [p₁, p₂]
    cases wild with
    | false => rfl
    | true =>
      show countsDesc (cards.map (substJ c₁)) = countsDesc (cards.map (substJ c₂))
      exact countsDesc_subst_indep cards c₁ c₂ (hc₁ rfl) (hc₂ rfl)
  rw [hcfs, s₂] at s₁
  exact (Option.some.injEq _ _).mp s₁ ▸ rfl

/-! ### The sorted total depends only on cards, bid and category -/

/-- The projection of a hand onto the fields that `sort_hands` and the
scoring loop read. -/
def HandR (h g : Hand) : Prop :=
  h.cards = g.cards ∧ h.bid = g.bid ∧ h.handType = g.handType

/-- Relating two possibly-panicking hand-list results pointwise. -/
def OptListR (o₁ o₂ : Option (List Hand)) : Prop :=
  match o₁, o₂ with
  | none, none => True
  | some s₁, some s₂ => List.Forall₂ HandR s₁ s₂
  | _, _ => False

theorem cmpHands_resp (wild : Bool) {a a' b b' : Hand} (h₁ : HandR a a') (h₂ : HandR b b') :
    cmpHands wild a b = cmpHands wild a' b' :=
  cmpHands_congr wild a a' b b' h₁.2.2 h₁.1 h₂.2.2 h₂.1

theorem insertHand_resp (wild : Bool) {h h' : Hand} (hR : HandR h h') :
    ∀ {l l' : List Hand}, List.Forall₂ HandR l l' →
      OptListR (insertHand wild h l) (insertHand wild h' l') := by
  intro l l' hF
  induction hF with
  | nil => exact List.Forall₂.cons hR List.Forall₂.nil
  | @cons g g' gs gs' hg hF ih =>
    have hcmp : cmpHands wild h g = cmpHands wild h' g' := cmpHands_resp wild hR hg
    show OptListR (insertHand wild h (g :: gs)) (insertHand wild h' (g' :: gs'))
    cases hc : cmpHands wild h g with
    | none =>
      have hc' : cmpHands wild h' g' = none := hcmp.symm.trans hc
      simp [insertHand, hc, hc', OptListR]
    | some o =>
      have hc' : cmpHands wild h' g' = some o := hcmp.symm.trans hc
      by_cases ho : o = Ordering.gt
      · simp only [insertHand, hc, hc', ho, if_pos]
        cases hi : insertHand wild h gs with
        | none =>
          cases hi' : insertHand wild h' gs' with
          | none => simp [OptListR]
          | some s =>
            rw [hi, hi'] at ih
            exact ih.elim
        | some s =>
          cases hi' : insertHand wild h' gs' with
          | none =>
            rw [hi, hi'] at ih
            exact ih.elim
          | some s' =>
            rw [hi, hi'] at ih
            have ih' : List.Forall₂ HandR s s' := ih
            simp only [Option.map_some']
            exact List.Forall₂.cons hg ih'
      · simp only [insertHand, hc, hc', if_neg ho]
        exact List.Forall₂.cons hR (List.Forall₂.cons hg hF)

theorem sortHands_resp (wild : Bool) :
    ∀ {l l' : List Hand}, List.Forall₂ HandR l l' →
      OptListR (sortHands wild l) (sortHands wild l') := by
  intro l l' hF
  induction hF with
  | nil => exact List.Forall₂.nil
  | @cons h h' hs hs' hR hF ih =>
    show OptListR (sortHands wild (h :: hs)) (sortHands wild (h' :: hs'))
    cases hsrt : sortHands wild hs with
    | none =>
      cases hsrt' : sortHands wild hs' with
      | none => simp [sortHands, hsrt, hsrt', OptListR]
      | some s =>
        rw [hsrt, hsrt'] at ih
        exact ih.elim
    | some s =>
      cases hsrt' : sortHands wild hs' with
      | none =>
        rw [hsrt, hsrt'] at ih
        exact ih.elim
      | some s' =>
        rw [hsrt, hsrt'] at ih
        have ih' : List.Forall₂ HandR s s' := ih
        simp only [sortHands, hsrt, hsrt']
        exact insertHand_resp wild hR ih'

theorem totalAux_resp : ∀ (i acc : Nat) {l l' : List Hand}, List.Forall₂ HandR l l' →
    totalAux i acc l = totalAux i acc l' := by
  intro i acc l l' hF
  induction hF generalizing i acc with
  | nil => rfl
  | @cons h h' hs hs' hR hF ih =>
    show totalAux i acc (h :: hs) = totalAux i acc (h' :: hs')
    unfold totalAux
    rw [hR.2.1]
    exact ih _ _

theorem buildHands_indep (f₁ f₂ : List String → String) (wild : Bool) :
    ∀ (rows : List (List String × Int)),
      (∀ p ∈ rows, p.1.length = 5 ∧ ∀ x ∈ p.1, x ∈ validLabels) →
      (∀ p ∈ rows, wild = true → validChoice p.1 (f₁ p.1)) →
      (∀ p ∈ rows, wild = true → validChoice p.1 (f₂ p.1)) →
      OptListR (buildHands f₁ rows wild) (buildHands f₂ rows wild) := by
  intro rows
  induction rows with
  | nil =>
    intro _ _ _
    exact List.Forall₂.nil
  | cons p ps ih =>
    intro hrows hf₁ hf₂
    obtain ⟨hplen, hpval⟩ := hrows p (List.mem_cons_self p ps)
    obtain ⟨g₁, e₁, -⟩ := handType_eq_shape (f₁ p.1) p.1 p.2 wild hplen hpval
      (hf₁ p (List.mem_cons_self p ps))
    obtain ⟨g₂, e₂, -⟩ := handType_eq_shape (f₂ p.1) p.1 p.2 wild hplen hpval
      (hf₂ p (List.mem_cons_self p ps))
    have hR : HandR g₁ g₂ := by
      have pc₁ : g₁.cards = p.1 := congrArg Hand.cards (mkHandWith_eq_some e₁).1
      have pc₂ : g₂.cards = p.1 := congrArg Hand.cards (mkHandWith_eq_some e₂).1
      have pb₁ : g₁.bid = p.2 := congrArg Hand.bid (mkHandWith_eq_some e₁).1
      have pb₂ : g₂.bid = p.2 := congrArg Hand.bid (mkHandWith_eq_some e₂).1
      have hht := handType_choice_indep (f₁ p.1) (f₂ p.1) p.1 p.2 p.2 wild hplen hpval
        (hf₁ p (List.mem_cons_self p ps)) (hf₂ p (List.mem_cons_self p ps))
      rw [e₁, e₂, Option.map_some', Option.map_some'] at hht
      exact ⟨pc₁.trans pc₂.symm, pb₁.trans pb₂.symm, Option.some.inj hht⟩
    have hrec := ih (fun q hq => hrows q (List.mem_cons_of_mem p hq))
      (fun q hq => hf₁ q (List.mem_cons_of_mem p hq))
      (fun q hq => hf₂ q (List.mem_cons_of_mem p hq))
    show OptListR (buildHands f₁ (p :: ps) wild) (buildHands f₂ (p :: ps) wild)
    cases hm₁ : buildHands f₁ ps wild with
    | none =>
      cases hm₂ : buildHands f₂ ps wild with
      | none => simp [buildHands, e₁, e₂, hm₁, hm₂, OptListR]
      | some s =>
        rw [hm₁, hm₂] at hrec
        exact hrec.elim
    | some s₁ =>
      cases hm₂ : buildHands f₂ ps wild with
      | none =>
        rw [hm₁, hm₂] at hrec
        exact hrec.elim
      | some s₂ =>
        rw [hm₁, hm₂] at hrec
        have hrec' : List.Forall₂ HandR s₁ s₂ := hrec
        simp only [buildHands, e₁, e₂, hm₁, hm₂]
        exact List.Forall₂.cons hR hrec'

theorem runSolutionWith_indep (f₁ f₂ : List String → String)
    (rows : List (List String × Int)) (wild : Bool)
    (hrows : ∀ p ∈ rows, p.1.length = 5 ∧ ∀ x ∈ p.1, x ∈ validLabels)
    (hf₁ : ∀ p ∈ rows, wild = true → validChoice p.1 (f₁ p.1))
    (hf₂ : ∀ p ∈ rows, wild = true → validChoice p.1 (f₂ p.1)) :
    runSolutionWith f₁ rows wild = runSolutionWith f₂ rows wild := by
  unfold runSolutionWith
  have hb := buildHands_indep f₁ f₂ wild rows hrows hf₁ hf₂
  cases h₁ : buildHands f₁ rows wild with
  | none =>
    cases h₂ : buildHands f₂ rows wild with
    | none => rfl
    | some s =>
      rw [h₁, h₂] at hb
      exact hb.elim
  | some s₁ =>
    cases h₂ : buildHands f₂ rows wild with
    | none =>
      rw [h₁, h₂] at hb
      exact hb.elim
    | some s₂ =>
      rw [h₁, h₂] at hb
      have hb' : List.Forall₂ HandR s₁ s₂ := hb
      have hs := sortHands_resp wild hb'
      cases hs₁ : sortHands wild s₁ with
      | none =>
        cases hs₂ : sortHands wild s₂ with
        | none => simp only [hs₁, hs₂]
        | some t =>
          rw [hs₁, hs₂] at hs
          exact hs.elim
      | some t₁ =>
        cases hs₂ : sortHands wild s₂ with
        | none =>
          rw [hs₁, hs₂] at hs
          exact hs.elim
        | some t₂ =>
          rw [hs₁, hs₂] at hs
          have hs' : List.Forall₂ HandR t₁ t₂ := hs
          simp only [hs₁, hs₂]
          unfold totalWinnings
          rw [totalAux_resp 0 0 hs']

/-! ### The claims -/

/-- C1: for the five-hand example input, the pipeline (construct hands with
any admissible wildcard-loop choice, sort ascending by the comparator, sum
1-based rank times stake) returns 6440 in standard mode and 5905 in
wildcard mode. -/
theorem C1_example_totals (f : List String → String)
    (hf : ∀ p ∈ exampleRows, validChoice p.1 (f p.1)) :
    runSolutionWith f exampleRows false = some 6440 ∧
    runSolutionWith f exampleRows true = some 5905 := by
  have hrows : ∀ p ∈ exampleRows, p.1.length = 5 ∧ ∀ x ∈ p.1, x ∈ validLabels := by decide
  have hcm : ∀ p ∈ exampleRows, validChoice p.1 (chooseMax p.1) := by decide
  constructor
  · rw [runSolutionWith_indep f (fun cs => chooseMax cs) exampleRows false hrows
      (fun p hp h => Bool.noConfusion h) (fun p hp h => Bool.noConfusion h)]
    decide
  · rw [runSolutionWith_indep f (fun cs => chooseMax cs) exampleRows true hrows
      (fun p hp _ => hf p hp) (fun p hp _ => hcm p hp)]
    decide

/-- Witness for C1 at the executable default choice. -/
theorem C1_example_totals_witness :
    runSolutionWith chooseMax exampleRows false = some 6440 ∧
    runSolutionWith chooseMax exampleRows true = some 5905 :=
  C1_example_totals chooseMax (by decide)

/-- C2 counterexample: for the wildcard hand T55J5 the constructed count
mapping sums to 7, not 5 (the code adds `max_count` to the chosen label
instead of the joker count). -/
theorem C2_counterexample :
    (mkHand ["T", "5", "5", "J", "5"] 684 true).map (fun h => mapTotal h.cardsMapped) =
      some 7 ∧ (7 : Nat) ≠ 5 := by
  constructor
  · decide
  · decide

/-- C2 (amended): for every valid 5-label hand built in wildcard mode with
an admissible choice, the count mapping has no joker entry, and its counts
sum to 5 minus the joker count plus the maximal non-joker count (so to 5
exactly when those two agree). -/
theorem C2_wildcard_map (cards : List String) (bid : Int) (c : String)
    (hlen : cards.length = 5) (hval : ∀ x ∈ cards, x ∈ validLabels)
    (hc : validChoice cards c) :
    (mkHandWith c cards bid true).map (fun h => h.cardsMapped ("J")) = some none ∧
    (mkHandWith c cards bid true).map (fun h => mapTotal h.cardsMapped + cards.count ("J")) =
      some (5 + maxCnt cards) := by
  obtain ⟨h, e, -⟩ := handType_eq_shape c cards bid true hlen hval (fun _ => hc)
  have pm : h.cardsMapped = handMap c cards true :=
    congrArg Hand.cardsMapped (mkHandWith_eq_some e).1
  have ht := wildMap_total cards c hval hc
  rw [hlen] at ht
  rw [e, Option.map_some', Option.map_some', pm]
  exact ⟨congrArg some ht.1, congrArg some ht.2⟩

/-- Witness for C2 (amended) at the hand T55J5. -/
theorem C2_wildcard_map_witness :
    (mkHandWith ("5") ["T", "5", "5", "J", "5"] 684 true).map
      (fun h => h.cardsMapped ("J")) = some none ∧
    (mkHandWith ("5") ["T", "5", "5", "J", "5"] 684 true).map
      (fun h => mapTotal h.cardsMapped +
        (["T", "5", "5", "J", "5"] : List String).count ("J")) =
      some (5 + maxCnt ["T", "5", "5", "J", "5"]) :=
  C2_wildcard_map ["T", "5", "5", "J", "5"] 684 ("5") (by decide) (by decide) (by decide)

/-- C3 counterexample: a four-label sequence of identical cards constructs
without any error and is classified FiveOfAKind. -/
theorem C3_counterexample :
    (["2", "2", "2", "2"] : List String).length ≠ 5 ∧
    (mkHand ["2", "2", "2", "2"] 1 false).isSome = true ∧
    (mkHand ["2", "2", "2", "2"] 1 false).map Hand.handType =
      some HandType.FiveOfAKind := by
  refine ⟨by decide, by decide, by decide⟩

/-- C3 (amended): hand construction does not validate the label-sequence
length (a 4-label all-equal hand silently yields a scored FiveOfAKind
hand), and the stake is accepted whenever it parses as an `i32`, negative
values included; only a missing or non-integer stake token fails, as an
`unwrap` panic at the parsing boundary. -/
theorem C3_no_validation :
    (mkHand ["2", "2", "2", "2"] 1 false).map Hand.handType =
      some HandType.FiveOfAKind ∧
    parseI32 ("-5") = some (-5) ∧
    parseLine ("32T3K -5") = some (["3", "2", "T", "3", "K"], -5) ∧
    parseI32 ("abc") = none ∧
    parseLine ("32T3K abc") = none ∧
    parseLine ("32T3K") = none := by
  refine ⟨by decide, by decide, by decide, by decide, by decide, by decide⟩

/-- C4: for every valid 5-label hand (under any admissible wildcard
choice when the mode is active), construction succeeds and the computed
category equals the classification by the descending sorted count shape of
the resolved sequence. -/
theorem C4_classification (cards : List String) (bid : Int) (wild : Bool) (c : String)
    (hlen : cards.length = 5) (hval : ∀ x ∈ cards, x ∈ validLabels)
    (hc : wild = true → validChoice cards c) :
    ∃ h, mkHandWith c cards bid wild = some h ∧
      shapeClassify (countsDesc h.cardsForSorting) = some h.handType :=
  handType_eq_shape c cards bid wild hlen hval hc

/-- Witness for C4 at the wildcard hand KTJJT. -/
theorem C4_classification_witness :
    ∃ h, mkHandWith ("T") ["K", "T", "J", "J", "T"] 220 true = some h ∧
      shapeClassify (countsDesc h.cardsForSorting) = some h.handType :=
  C4_classification ["K", "T", "J", "J", "T"] 220 true ("T") (by decide) (by decide)
    (fun _ => by decide)

/-- C5: the hand comparator agrees with the spec's contract (category
ordinals first, then position-by-position mode-dependent ordinals of the
original sequences), and it reads nothing but the category and the
original cards, never the resolved fields. -/
theorem C5_comparator_spec :
    (∀ (wild : Bool) (a b : Hand), cmpHands wild a b = specHandCompare wild a b) ∧
    (∀ (wild : Bool) (a a' b b' : Hand), a.handType = a'.handType → a.cards = a'.cards →
      b.handType = b'.handType → b.cards = b'.cards →
      cmpHands wild a b = cmpHands wild a' b') :=
  ⟨cmpHands_eq_spec, fun wild a a' b b' => cmpHands_congr wild a a' b b'⟩

/-- Witness for C5 on two concrete hands, one with scrambled resolved
fields. -/
theorem C5_comparator_spec_witness :
    cmpHands false
        ⟨["3", "2", "T", "3", "K"], fun _ => none, 765, [], HandType.Pair, []⟩
        ⟨["K", "K", "6", "7", "7"], fun _ => none, 28, [], HandType.TwoPair, []⟩ =
      specHandCompare false
        ⟨["3", "2", "T", "3", "K"], fun _ => none, 765, [], HandType.Pair, []⟩
        ⟨["K", "K", "6", "7", "7"], fun _ => none, 28, [], HandType.TwoPair, []⟩ ∧
    cmpHands false
        ⟨["3", "2", "T", "3", "K"], fun _ => none, 765, [], HandType.Pair, []⟩
        ⟨["K", "K", "6", "7", "7"], fun _ => none, 28, [], HandType.TwoPair, []⟩ =
      cmpHands false
        ⟨["3", "2", "T", "3", "K"], fun _ => some 3, 765, ["9"], HandType.Pair, ["9"]⟩
        ⟨["K", "K", "6", "7", "7"], fun _ => some 4, 28, ["8"], HandType.TwoPair, ["8"]⟩ :=
  ⟨C5_comparator_spec.1 false _ _, C5_comparator_spec.2 false _ _ _ _ rfl rfl rfl rfl⟩

/-- C6: comparing two hands with equal category and identical original
label sequences panics (the tie `panic!`), embedded as `none`, rather than
returning an ordering. -/
theorem C6_tie_panics (wild : Bool) (a b : Hand) (h₁ : a.handType = b.handType)
    (h₂ : a.cards = b.cards) : cmpHands wild a b = none := by
  unfold cmpHands cmpCore
  rw [h₁, h₂, if_pos rfl]
  exact cmpLoop_self wild b.cards

/-- Witness for C6 on a concrete pair of equal hands. -/
theorem C6_tie_panics_witness :
    cmpHands false
        ⟨["3", "2", "T", "3", "K"], fun _ => none, 765, [], HandType.Pair, []⟩
        ⟨["3", "2", "T", "3", "K"], fun _ => none, 11, [], HandType.Pair, []⟩ = none :=
  C6_tie_panics false _ _ rfl rfl

/-- C7: the pipeline is deterministic: the category of each hand and the
final total do not depend on which maximum-count non-joker label the
wildcard loop picks, and re-running the scorer on the same input and mode
yields identical output. -/
theorem C7_determinism :
    (∀ (cards : List String) (bid₁ bid₂ : Int) (wild : Bool) (c₁ c₂ : String),
      cards.length = 5 → (∀ x ∈ cards, x ∈ validLabels) →
      (wild = true → validChoice cards c₁) → (wild = true → validChoice cards c₂) →
      (mkHandWith c₁ cards bid₁ wild).map Hand.handType =
        (mkHandWith c₂ cards bid₂ wild).map Hand.handType) ∧
    (∀ (f₁ f₂ : List String → String) (rows : List (List String × Int)) (wild : Bool),
      (∀ p ∈ rows, p.1.length = 5 ∧ ∀ x ∈ p.1, x ∈ validLabels) →
      (∀ p ∈ rows, wild = true → validChoice p.1 (f₁ p.1)) →
      (∀ p ∈ rows, wild = true → validChoice p.1 (f₂ p.1)) →
      runSolutionWith f₁ rows wild = runSolutionWith f₂ rows wild) ∧
    (∀ (f : List String → String) (rows : List (List String × Int)) (wild : Bool),
      runSolutionWith f rows wild = runSolutionWith f rows wild) :=
  ⟨fun cards bid₁ bid₂ wild c₁ c₂ hlen hval hc₁ hc₂ =>
      handType_choice_indep c₁ c₂ cards bid₁ bid₂ wild hlen hval hc₁ hc₂,
    runSolutionWith_indep,
    fun _ _ _ => rfl⟩

/-- Witness for C7 on the hand 2233J, where both 2 and 3 attain the
maximal non-joker count. -/
theorem C7_determinism_witness :
    (mkHandWith ("2") ["2", "2", "3", "3", "J"] 10 true).map Hand.handType =
      (mkHandWith ("3") ["2", "2", "3", "3", "J"] 11 true).map Hand.handType ∧
    runSolutionWith (fun _ => "2") [(["2", "2", "3", "3", "J"], 10)] true =
      runSolutionWith (fun _ => "3") [(["2", "2", "3", "3", "J"], 10)] true :=
  ⟨C7_determinism.1 ["2", "2", "3", "3", "J"] 10 11 true ("2") ("3") (by decide) (by decide)
      (fun _ => by decide) (fun _ => by decide),
    C7_determinism.2.1 (fun _ => "2") (fun _ => "3") [(["2", "2", "3", "3", "J"], 10)] true
      (by decide) (by decide) (by decide)⟩

/-- C8: a valid joker-free 5-label hand classifies identically in wildcard
and standard mode. -/
theorem C8_jfree_mode_agree (cards : List String) (bid : Int) (c : String)
    (hlen : cards.length = 5) (hval : ∀ x ∈ cards, x ∈ validLabels)
    (hnoJ : "J" ∉ cards) (hc : validChoice cards c) :
    (mkHandWith c cards bid true).map Hand.handType =
      (mkHandWith c cards bid false).map Hand.handType := by
  obtain ⟨g₁, e₁, s₁⟩ := handType_eq_shape c cards bid true hlen hval (fun _ => hc)
  obtain ⟨g₂, e₂, s₂⟩ := handType_eq_shape c cards bid false hlen hval
    (fun h => Bool.noConfusion h)
  rw [e₁, e₂, Option.map_some', Option.map_some']
  have p₁ : g₁.cardsForSorting = cards.map (substJ c) :=
    congrArg Hand.cardsForSorting (mkHandWith_eq_some e₁).1
  have p₂ : g₂.cardsForSorting = cards :=
    congrArg Hand.cardsForSorting (mkHandWith_eq_some e₂).1
  have hsub : cards.map (substJ c) = cards := by
    have hid : ∀ x ∈ cards, substJ c x = x := by
      intro x hx
      unfold substJ
      have hxJ : ¬ x = "J" := fun hEq => hnoJ (hEq ▸ hx)
      rw [if_neg hxJ]
    rw [List.map_congr_left hid, List.map_id']
  have hshape : countsDesc g₁.cardsForSorting = countsDesc g₂.cardsForSorting := by
    rw [p₁, p₂, hsub]
  rw [hshape, s₂] at s₁
  exact congrArg some (Option.some.inj s₁).symm

/-- Witness for C8 at the joker-free hand KK677. -/
theorem C8_jfree_mode_agree_witness :
    (mkHandWith ("K") ["K", "K", "6", "7", "7"] 28 true).map Hand.handType =
      (mkHandWith ("K") ["K", "K", "6", "7", "7"] 28 false).map Hand.handType :=
  C8_jfree_mode_agree ["K", "K", "6", "7", "7"] 28 ("K") (by decide) (by decide)
    (by decide) (by decide)

/-- C9: the all-joker hand classifies FiveOfAKind in wildcard mode (with
the placeholder the loop's initialisation forces), and the internally
chosen placeholder never influences hand-versus-hand comparison. -/
theorem C9_all_jokers :
    (∀ bid : Int, (mkHandWith ("A") ["J", "J", "J", "J", "J"] bid true).map Hand.handType =
      some HandType.FiveOfAKind) ∧
    (∀ (cards : List String) (bid : Int) (wild : Bool) (c₁ c₂ : String) (g h₁ h₂ : Hand),
      cards.length = 5 → (∀ x ∈ cards, x ∈ validLabels) →
      (wild = true → validChoice cards c₁) → (wild = true → validChoice cards c₂) →
      mkHandWith c₁ cards bid wild = some h₁ → mkHandWith c₂ cards bid wild = some h₂ →
      cmpHands wild h₁ g = cmpHands wild h₂ g ∧ cmpHands wild g h₁ = cmpHands wild g h₂) := by
  constructor
  · intro bid
    rfl
  · intro cards bid wild c₁ c₂ g h₁ h₂ hlen hval hc₁ hc₂ e₁ e₂
    have hR : HandR h₁ h₂ := by
      have pc₁ : h₁.cards = cards := congrArg Hand.cards (mkHandWith_eq_some e₁).1
      have pc₂ : h₂.cards = cards := congrArg Hand.cards (mkHandWith_eq_some e₂).1
      have pb₁ : h₁.bid = bid := congrArg Hand.bid (mkHandWith_eq_some e₁).1
      have pb₂ : h₂.bid = bid := congrArg Hand.bid (mkHandWith_eq_some e₂).1
      have hht := handType_choice_indep c₁ c₂ cards bid bid wild hlen hval hc₁ hc₂
      rw [e₁, e₂, Option.map_some', Option.map_some'] at hht
      exact ⟨pc₁.trans pc₂.symm, pb₁.trans pb₂.symm, Option.some.inj hht⟩
    have hRg : HandR g g := ⟨rfl, rfl, rfl⟩
    exact ⟨cmpHands_resp wild hR hRg, cmpHands_resp wild hRg hR⟩

/-- Witness for C9: the five-joker hand at stake 0, compared against a
concrete opposing hand with either admissible construction. -/
theorem C9_all_jokers_witness :
    (mkHandWith ("A") ["J", "J", "J", "J", "J"] 0 true).map Hand.handType =
      some HandType.FiveOfAKind ∧
    (∀ h₁ h₂ : Hand,
      mkHandWith ("A") ["J", "J", "J", "J", "J"] 0 true = some h₁ →
      mkHandWith ("A") ["J", "J", "J", "J", "J"] 0 true = some h₂ →
      cmpHands true h₁
          ⟨["K", "K", "6", "7", "7"], fun _ => none, 28, [], HandType.TwoPair, []⟩ =
        cmpHands true h₂
          ⟨["K", "K", "6", "7", "7"], fun _ => none, 28, [], HandType.TwoPair, []⟩) :=
  ⟨C9_all_jokers.1 0,
    fun h₁ h₂ e₁ e₂ =>
      (C9_all_jokers.2 ["J", "J", "J", "J", "J"] 0 true ("A") ("A")
        ⟨["K", "K", "6", "7", "7"], fun _ => none, 28, [], HandType.TwoPair, []⟩ h₁ h₂
        (by decide) (by decide) (fun _ => by decide) (fun _ => by decide) e₁ e₂).1⟩

/-- C10: for every valid 5-label hand in either mode, every label of the
sequence used for count-based sorting is a present key of the count
mapping, so the lookups inside `sort_cards` cannot fail; for the
all-joker wildcard hand the placeholder is present with count 0. -/
theorem C10_lookup_safe (cards : List String) (bid : Int) (wild : Bool) (c : String)
    (hlen : cards.length = 5) (hval : ∀ x ∈ cards, x ∈ validLabels)
    (hc : wild = true → validChoice cards c) :
    ∃ h, mkHandWith c cards bid wild = some h ∧
      (∀ x ∈ h.cardsForSorting, (h.cardsMapped x).isSome = true) ∧
      (wild = true → (∀ y ∈ cards, y = "J") → h.cardsMapped c = some 0) := by
  obtain ⟨h, e, -⟩ := handType_eq_shape c cards bid wild hlen hval hc
  have pm : h.cardsMapped = handMap c cards wild :=
    congrArg Hand.cardsMapped (mkHandWith_eq_some e).1
  have pf : h.cardsForSorting = resolvedCards c cards wild :=
    congrArg Hand.cardsForSorting (mkHandWith_eq_some e).1
  refine ⟨h, e, ?_, ?_⟩
  · intro x hx
    rw [pm]
    rw [pf] at hx
    cases wild with
    | false =>
      have hx' : x ∈ cards := hx
      show ((buildMap cards) x).isSome = true
      unfold buildMap
      rw [if_pos hx']
      rfl
    | true =>
      have hvc := hc rfl
      have hcJ := validChoice_ne_J hvc
      show ((mergeJMap (buildMap cards) c (maxCnt cards)) x).isSome = true
      unfold mergeJMap
      rcases mem_resolved hx with rfl | ⟨hxM, hxJ'⟩
      · rw [if_neg hcJ, if_pos rfl]
        rfl
      · have hxJ := hxJ' rfl
        rw [if_neg hxJ]
        by_cases hxc : x = c
        · rw [if_pos hxc]
          rfl
        · rw [if_neg hxc]
          unfold buildMap
          rw [if_pos hxM]
          rfl
  · intro hw hallJ
    subst hw
    rw [pm]
    have hvc := hc rfl
    have hany : ¬ (cards.any (fun x => x != "J") = true) := by
      intro hco
      obtain ⟨a, haM, haB⟩ := List.any_eq_true.mp hco
      exact (bne_iff_ne.mp haB) (hallJ a haM)
    have hcA : c = "A" := by
      unfold validChoice at hvc
      rwa [if_neg hany] at hvc
    have hcJ : ¬ c = "J" := by
      rw [hcA]
      decide
    show (mergeJMap (buildMap cards) c (maxCnt cards)) c = some 0
    unfold mergeJMap
    rw [if_neg hcJ, if_pos rfl]
    have h1 : buildMap cards c = none := by
      unfold buildMap
      rw [if_neg (fun hm => hcJ (hallJ c hm))]
    have h2 : maxCnt cards = 0 := by
      unfold maxCnt
      have hfil : cards.filter (fun x => x != "J") = [] := by
        apply List.filter_eq_nil_iff.mpr
        intro a ha
        simp [hallJ a ha]
      rw [hfil]
      rfl
    rw [h1, h2]
    rfl

/-- Witness for C10 at the all-joker wildcard hand. -/
theorem C10_lookup_safe_witness :
    ∃ h, mkHandWith ("A") ["J", "J", "J", "J", "J"] 3 true = some h ∧
      (∀ x ∈ h.cardsForSorting, (h.cardsMapped x).isSome = true) ∧
      (true = true → (∀ y ∈ (["J", "J", "J", "J", "J"] : List String), y = "J") →
        h.cardsMapped ("A") = some 0) :=
  C10_lookup_safe ["J", "J", "J", "J", "J"] 3 true ("A") (by decide) (by decide)
    (fun _ => by decide)
